import Mathlib

/-!
Verification development for the dsd-agent repository.

This file gives a shallow embedding, in Lean 4, of the deterministic core of
the repository (src/dsd_agent/agent.py and src/dsd_agent/pptx_handler.py):

* the geometry normalizer `DSDDocument._assign_row_groups` and the
  `(row_group, left)` ordering applied in `find_architecture_slides`;
* the mapping reconciler inside `DSDAgent.create_mapping` (the loop over the
  raw response entries, the consumed sets and the residual sets);
* the response-parsing stage of `DSDAgent.create_mapping` (fence stripping,
  JSON decoding fallback, structured parse failure);
* the mapping applier `DSDAgent.apply_mapping` together with the document
  store operations `DSDDocument.update_placeholder`,
  `DSDDocument.update_placeholders_batch` and the
  `find_architecture_slides` cache.

Modelling conventions
* Python floats are modelled as rationals (`Rat`); the geometry only adds,
  subtracts and compares coordinates, so exact rational arithmetic matches
  the float computation except on astronomically borderline inputs.
* Python `None` is modelled by `Option` (`none`); strings that may be `None`
  (for example `m.get("shape_name")`) are `Option String`.
* Python dicts are modelled as insertion-ordered association lists where an
  insert of an existing key replaces the value in place and a lookup takes
  the first (unique) matching key; dict construction from a list with
  duplicate keys keeps the last value, modelled by `find?` on the reversed
  list.
* Python sets are modelled as lists used only through membership.
* Python exceptions are modelled by explicit error values (`Except`, or an
  `Option` flag paired with the state reached when the exception is raised).
* The LLM call itself and `json.loads` are external inputs: theorems about
  the parsing stage are parameterized by a `loads : String → Option Json`
  function (`none` modelling `json.JSONDecodeError`); concrete
  counterexamples instantiate it with functions whose behavior on the
  specific input strings is that of `json.loads`.
-/

namespace DSD

/-- Mirrors the `Placeholder` dataclass of src/dsd_agent/pptx_handler.py. -/
structure Placeholder where
  slide_index : Nat
  slide_title : String
  shape_name : String
  text : String
  left : Rat
  top : Rat
  width : Rat
  height : Rat
  row_group : Nat
  deriving DecidableEq, Repr

/-- Mirrors the `SystemComponent` dataclass of src/dsd_agent/image_analyzer.py
(fields `name`, `category`, `description = ""`, `layer = ""`).  The `name`
field is `Option String` because `DSDAgent.create_mapping` can construct a
component whose name is `m.get("component_name")`, which is Python `None`
when the key is absent. -/
structure SystemComponent where
  name : Option String
  category : String
  description : String
  layer : String
  deriving DecidableEq, Repr

/-- Mirrors the `ArchitectureSlide` dataclass of src/dsd_agent/pptx_handler.py. -/
structure ArchitectureSlide where
  index : Nat
  title : String
  placeholders : List Placeholder
  deriving DecidableEq, Repr

/-- Mirrors the `MappingResult` dataclass of src/dsd_agent/agent.py.  The
`integration_patterns` field is omitted: it is filled from the out-of-scope
LLM pattern analysis and never read by the reconciler or applier. -/
structure MappingResult where
  slide_index : Nat
  slide_title : String
  mappings : List (Placeholder × SystemComponent)
  unmapped_placeholders : List Placeholder
  unmapped_components : List SystemComponent
  deriving DecidableEq, Repr

/-- One entry `m` of `data["mappings"]` as read by the reconciliation loop of
`DSDAgent.create_mapping`: `m.get("shape_name")`, `m.get("component_name")`
(both default to Python `None`, hence `Option String`; a non-string JSON
value never compares equal to a string dict key, so it behaves like `none`
for every lookup the loop performs) and `m.get("reasoning", "")`. -/
structure RawEntry where
  shape_name : Option String
  component_name : Option String
  reasoning : String
  deriving DecidableEq, Repr

/-- Lookup in the dict `ph_by_name = {ph.shape_name: ph for ph in slide.placeholders}`
(src/dsd_agent/agent.py line 246).  Dict construction keeps the last
placeholder for a duplicated name, so lookup searches the reversed list. -/
def ph_by_name (phs : List Placeholder) (s : String) : Option Placeholder :=
  phs.reverse.find? (fun ph => decide (ph.shape_name = s))

/-- Lookup in the dict `comp_by_name = {c.name: c for c in analysis.components}`
(src/dsd_agent/agent.py line 247), with the same last-wins construction. -/
def comp_by_name (comps : List SystemComponent) (k : Option String) : Option SystemComponent :=
  comps.reverse.find? (fun c => decide (c.name = k))

/-- The mutable state of the reconciliation loop of `DSDAgent.create_mapping`
(lines 241-243): the `mappings` list and the `mapped_shapes` and
`mapped_components` sets (sets are modelled as lists used via membership). -/
structure ReconState where
  mappings : List (Placeholder × SystemComponent)
  mapped_shapes : List String
  mapped_components : List (Option String)
  deriving DecidableEq, Repr

/-- The component synthesized by `DSDAgent.create_mapping` (lines 257-262)
when `comp_by_name.get(component_name)` is `None`:
`SystemComponent(name=component_name, category="unknown", description=m.get("reasoning", ""))`,
with `layer` keeping its dataclass default `""`. -/
def synthComponent (e : RawEntry) : SystemComponent :=
  { name := e.component_name, category := "unknown", description := e.reasoning, layer := "" }

/-- One iteration of the loop `for m in data.get("mappings", [])` of
`DSDAgent.create_mapping` (src/dsd_agent/agent.py lines 249-266). -/
def reconcileStep (phs : List Placeholder) (comps : List SystemComponent)
    (st : ReconState) (e : RawEntry) : ReconState :=
  match e.shape_name with
  | none => st
  | some s =>
    match ph_by_name phs s with
    | none => st
    | some ph =>
      let comp := (comp_by_name comps e.component_name).getD (synthComponent e)
      { mappings := st.mappings ++ [(ph, comp)]
        mapped_shapes := s :: st.mapped_shapes
        mapped_components :=
          if (comp_by_name comps e.component_name).isSome then
            e.component_name :: st.mapped_components
          else st.mapped_components }

/-- The reconciliation part of `DSDAgent.create_mapping`
(src/dsd_agent/agent.py lines 240-279): run the loop over the raw entries,
then compute `unmapped_ph` and `unmapped_comp` (lines 269-270) and build the
`MappingResult` (lines 272-279). -/
def reconcile (slide : ArchitectureSlide) (components : List SystemComponent)
    (entries : List RawEntry) : MappingResult :=
  let final := entries.foldl (reconcileStep slide.placeholders components) ⟨[], [], []⟩
  { slide_index := slide.index
    slide_title := slide.title
    mappings := final.mappings
    unmapped_placeholders :=
      slide.placeholders.filter (fun ph => decide (ph.shape_name ∉ final.mapped_shapes))
    unmapped_components :=
      components.filter (fun c => decide (c.name ∉ final.mapped_components)) }

/-- A raw entry passes the `if shape_name in ph_by_name` guard of the loop
(src/dsd_agent/agent.py line 253). -/
def acceptedEntry (phs : List Placeholder) (e : RawEntry) : Bool :=
  match e.shape_name with
  | none => false
  | some s => (ph_by_name phs s).isSome

/-- The walk of `DSDDocument._assign_row_groups` (src/dsd_agent/pptx_handler.py
lines 74-81) over the tops of the placeholders sorted by `top`, carrying
`current_top` and `row_group` and pairing each top with the row group
assigned at its position. -/
def walkAux (current_top : Rat) (g : Nat) : List Rat → List (Rat × Nat)
  | [] => []
  | t :: ts =>
    if |t - current_top| > 1/2 then (t, g + 1) :: walkAux t (g + 1) ts
    else (t, g) :: walkAux current_top g ts

/-- The full walk: `current_top` starts at the first sorted top and
`row_group` starts at 0, and the loop then runs over every element,
including the first (src/dsd_agent/pptx_handler.py lines 74-77). -/
def walkPairs : List Rat → List (Rat × Nat)
  | [] => []
  | t :: ts => walkAux t 0 (t :: ts)

/-- First-match lookup of a top value in the walk output. -/
def lookupGroup : List (Rat × Nat) → Rat → Nat
  | [], _ => 0
  | (u, g) :: rest, t => if t = u then g else lookupGroup rest t

/-- The tops of the placeholders sorted ascending, as produced by
`sorted(placeholders, key=lambda p: p.top)` (line 72); Python's sort is
stable, and `List.insertionSort` inserts an element before the first
element it compares `≤` to, which gives the same stable order. -/
def sortedTops (phs : List Placeholder) : List Rat :=
  List.insertionSort (fun a b : Rat => a ≤ b) (phs.map (fun p => p.top))

/-- Row group assigned to a placeholder with top `t`.  The Python code
mutates each placeholder object at its position in the sorted list;
placeholders with equal `top` always receive equal row groups (theorem
`walkPairs_group_unique` below), so the group is a function of the top value
and the in-place mutation is modelled by this lookup. -/
def rowGroupForTop (ts : List Rat) (t : Rat) : Nat :=
  lookupGroup (walkPairs ts) t

/-- Mirrors `DSDDocument._assign_row_groups` (src/dsd_agent/pptx_handler.py
lines 66-83): on empty input return the input unchanged; otherwise return
the placeholders in their original list order, each with its `row_group`
overwritten by the group computed along the top-sorted walk. -/
def _assign_row_groups (phs : List Placeholder) : List Placeholder :=
  if phs.isEmpty then phs
  else phs.map (fun ph => { ph with row_group := rowGroupForTop (sortedTops phs) ph.top })

/-- The key order used by `placeholders.sort(key=lambda p: (p.row_group, p.left))`
(src/dsd_agent/pptx_handler.py line 116): lexicographic comparison of the
`(row_group, left)` tuples. -/
def phLe (a b : Placeholder) : Prop :=
  a.row_group < b.row_group ∨ (a.row_group = b.row_group ∧ a.left ≤ b.left)

instance : DecidableRel phLe := fun a b =>
  inferInstanceAs (Decidable (a.row_group < b.row_group ∨ (a.row_group = b.row_group ∧ a.left ≤ b.left)))

instance : IsTotal Placeholder phLe := ⟨by
  intro a b
  rcases Nat.lt_trichotomy a.row_group b.row_group with h | h | h
  · exact Or.inl (Or.inl h)
  · rcases le_total a.left b.left with h2 | h2
    · exact Or.inl (Or.inr ⟨h, h2⟩)
    · exact Or.inr (Or.inr ⟨h.symm, h2⟩)
  · exact Or.inr (Or.inl h)⟩

instance : IsTrans Placeholder phLe := ⟨by
  intro a b c hab hbc
  rcases hab with h | ⟨he, hl⟩
  · rcases hbc with h' | ⟨he', _⟩
    · exact Or.inl (h.trans h')
    · exact Or.inl (he' ▸ h)
  · rcases hbc with h' | ⟨he', hl'⟩
    · exact Or.inl (he ▸ h')
    · exact Or.inr ⟨he.trans he', hl.trans hl'⟩⟩

/-- Strict version of `phLe`: strictly smaller `(row_group, left)` key. -/
def phLt (a b : Placeholder) : Prop :=
  a.row_group < b.row_group ∨ (a.row_group = b.row_group ∧ a.left < b.left)

instance : IsAntisymm Placeholder phLt := ⟨by
  intro a b hab hba
  exfalso
  rcases hab with h | ⟨he, hl⟩
  · rcases hba with h' | ⟨he', _⟩
    · exact absurd (h.trans h') (lt_irrefl _)
    · exact absurd (he' ▸ h) (lt_irrefl _)
  · rcases hba with h' | ⟨_, hl'⟩
    · exact absurd (he ▸ h') (lt_irrefl _)
    · exact absurd (hl.trans hl') (lt_irrefl _)⟩

/-- The normalization applied inside `find_architecture_slides`
(src/dsd_agent/pptx_handler.py lines 113-116): assign row groups, then sort
by the `(row_group, left)` key (Python's stable sort, modelled by the stable
`List.insertionSort`). -/
def normalizePlaceholders (phs : List Placeholder) : List Placeholder :=
  List.insertionSort phLe (_assign_row_groups phs)

/-- A python-pptx shape as seen by src/dsd_agent/pptx_handler.py: its name,
placeholder flag, text frame flag, geometry in EMUs and the text runs of its
paragraphs.  A run's text is `Option String` because `update_placeholder`
assigns `run.text = new_text` where `new_text` can be Python `None` (a
component name synthesized from a missing key). -/
structure Shape where
  name : String
  is_placeholder : Bool
  has_text_frame : Bool
  left : Int
  top : Int
  width : Int
  height : Int
  paragraphs : List (List (Option String))
  deriving DecidableEq, Repr

/-- A slide: its list of shapes. -/
structure Slide where
  shapes : List Shape
  deriving DecidableEq, Repr

/-- Mirrors `DSDDocument` of src/dsd_agent/pptx_handler.py: the presentation
(its slides) plus the `_architecture_slides` memoization field, initialized
to `None` in `__init__`. -/
structure DSDDocument where
  slides : List Slide
  _architecture_slides : Option (List ArchitectureSlide)
  deriving DecidableEq, Repr

/-- Python `str.strip()` on the characters of a string (ASCII whitespace;
the unicode whitespace handling of Python is not needed by any claim). -/
def pyIsSpace (c : Char) : Bool :=
  decide (c = ' ' ∨ c = '\t' ∨ c = '\n' ∨ c = '\r' ∨ c = Char.ofNat 11 ∨ c = Char.ofNat 12)

/-- Python `s.strip()`. -/
def pyStrip (s : String) : String :=
  String.mk (((s.data.dropWhile pyIsSpace).reverse.dropWhile pyIsSpace).reverse)

/-- Python `s.lower()` (ASCII case folding, which is all the sources use). -/
def pyLower (s : String) : String :=
  String.mk (s.data.map Char.toLower)

/-- Python `sub in s` (substring containment). -/
def pyContains (s sub : String) : Bool :=
  decide (List.IsInfix sub.data s.data)

/-- Python `s[:n]` for a nonnegative `n`. -/
def pyTake (s : String) (n : Nat) : String :=
  String.mk (s.data.take n)

/-- Text of one paragraph: the concatenation of its runs' texts, as
python-pptx's `paragraph.text` returns it. -/
def paragraphText (runs : List (Option String)) : String :=
  String.mk ((runs.map (fun r => (r.getD "").data)).flatten)

/-- Text of a text frame: paragraphs joined with a newline, as python-pptx's
`text_frame.text` returns it. -/
def shapeText (sh : Shape) : String :=
  String.mk (List.intercalate ['\n'] (sh.paragraphs.map (fun p => (paragraphText p).data)))

/-- Constant `DSDDocument.EMU_PER_INCH` (src/dsd_agent/pptx_handler.py line 34). -/
def EMU_PER_INCH : Int := 914400

/-- Mirrors `DSDDocument._emu_to_inches` (lines 62-64). -/
def _emu_to_inches (emu : Int) : Rat :=
  (emu : Rat) / (EMU_PER_INCH : Rat)

/-- Mirrors `DSDDocument._get_slide_title` (src/dsd_agent/pptx_handler.py
lines 45-60): first shape whose stripped text is nonempty, shorter than 100
characters and which is a placeholder; else first shape with nonempty text
shorter than 80 characters; else "Untitled". -/
def _get_slide_title (s : Slide) : String :=
  match s.shapes.find? (fun sh =>
      sh.has_text_frame &&
        (decide ((pyStrip (shapeText sh)) ≠ "") &&
          (decide ((pyStrip (shapeText sh)).data.length < 100) && sh.is_placeholder))) with
  | some sh => pyStrip (shapeText sh)
  | none =>
    match s.shapes.find? (fun sh =>
        sh.has_text_frame &&
          (decide ((pyStrip (shapeText sh)) ≠ "") &&
            decide ((pyStrip (shapeText sh)).data.length < 80))) with
    | some sh => pyStrip (shapeText sh)
    | none => "Untitled"

/-- The placeholder scan of one slide inside `find_architecture_slides`
(src/dsd_agent/pptx_handler.py lines 92-111): every shape with a text frame
whose stripped text contains "lorem" case-insensitively becomes a
`Placeholder` with `row_group = 0`. -/
def scanSlide (idx : Nat) (s : Slide) : List Placeholder :=
  let title := _get_slide_title s
  (s.shapes.filter (fun sh =>
      sh.has_text_frame && pyContains (pyLower (pyStrip (shapeText sh))) "lorem")).map
    (fun sh =>
      { slide_index := idx
        slide_title := title
        shape_name := sh.name
        text := pyStrip (shapeText sh)
        left := _emu_to_inches sh.left
        top := _emu_to_inches sh.top
        width := _emu_to_inches sh.width
        height := _emu_to_inches sh.height
        row_group := 0 })

/-- The full scan of `find_architecture_slides` (lines 90-124): slides with
at least one placeholder contribute an `ArchitectureSlide` whose
placeholders are row-grouped and `(row_group, left)`-sorted. -/
def scanDocument (slides : List Slide) : List ArchitectureSlide :=
  slides.enum.filterMap (fun p =>
    let phs := scanSlide p.1 p.2
    if phs.isEmpty then none
    else some { index := p.1, title := _get_slide_title p.2, placeholders := normalizePlaceholders phs })

/-- Mirrors `DSDDocument.find_architecture_slides` (src/dsd_agent/pptx_handler.py
lines 85-125) including the memoization on `_architecture_slides`: the pair
returned is (result, document state after the call). -/
def find_architecture_slides (d : DSDDocument) : List ArchitectureSlide × DSDDocument :=
  match d._architecture_slides with
  | some s => (s, d)
  | none =>
    let s := scanDocument d.slides
    (s, { d with _architecture_slides := some s })

/-- Inner run replacement of `DSDDocument.update_placeholder` (lines 136-144):
set the first run of the first paragraph that has at least one run; `none`
when no paragraph has a run (the loop falls through). -/
def setFirstRun : List (List (Option String)) → Option String → Option (List (List (Option String)))
  | [], _ => none
  | [] :: rest, t => (setFirstRun rest t).map (fun r => [] :: r)
  | (_ :: rs) :: rest, t => some ((t :: rs) :: rest)

/-- Outcome of the shape loop of `update_placeholder`: no matching shape
accepted the write (`False` is returned), the fallback raised `IndexError`,
or the shape list after the successful write. -/
inductive UpdRes where
  | notFound
  | indexError
  | updated (shapes : List Shape)
  deriving DecidableEq, Repr

/-- Propagate a loop outcome past a shape that did not accept the write. -/
def consRes (sh : Shape) : UpdRes → UpdRes
  | .notFound => .notFound
  | .indexError => .indexError
  | .updated shs => .updated (sh :: shs)

/-- The shape loop of `DSDDocument.update_placeholder` (lines 134-145): the
first shape matching `shape_name` with a text frame gets its first run
replaced and the loop returns; if such a shape has paragraphs but no run
anywhere, the fallback `paragraphs[0].runs[0]` raises `IndexError`; a
matching shape with no paragraphs at all falls through to the next shape. -/
def updateInShapes (shape_name : String) (new_text : Option String) : List Shape → UpdRes
  | [] => .notFound
  | sh :: rest =>
    if sh.name = shape_name ∧ sh.has_text_frame = true then
      match setFirstRun sh.paragraphs new_text with
      | some ps => .updated ({ sh with paragraphs := ps } :: rest)
      | none =>
        if sh.paragraphs.isEmpty then consRes sh (updateInShapes shape_name new_text rest)
        else .indexError
    else consRes sh (updateInShapes shape_name new_text rest)

/-- Mirrors `DSDDocument.update_placeholder` (src/dsd_agent/pptx_handler.py
lines 127-145).  The first component is `some b` for a normal return of `b`
and `none` for a propagated `IndexError`; the second component is the
document state when the call returns or raises. -/
def update_placeholder (d : DSDDocument) (slide_index : Nat) (shape_name : String)
    (new_text : Option String) : Option Bool × DSDDocument :=
  if slide_index < d.slides.length then
    match updateInShapes shape_name new_text (d.slides.getD slide_index ⟨[]⟩).shapes with
    | .notFound => (some false, d)
    | .indexError => (none, d)
    | .updated shs => (some true, { d with slides := d.slides.set slide_index ⟨shs⟩ })
  else (some false, d)

/-- Mirrors `DSDDocument.update_placeholders_batch` (lines 147-161): iterate
the updates in order, counting successful writes; an `IndexError` from an
individual write propagates (first component `none`), with the document in
the state reached so far. -/
def update_placeholders_batch (d : DSDDocument) :
    List ((Nat × String) × Option String) → Option Nat × DSDDocument
  | [] => (some 0, d)
  | ((i, nm), t) :: rest =>
    match update_placeholder d i nm t with
    | (none, d') => (none, d')
    | (some b, d') =>
      match update_placeholders_batch d' rest with
      | (none, d'') => (none, d'')
      | (some m, d'') => (some ((if b then 1 else 0) + m), d'')

/-- Python dict assignment `d[k] = v` on an insertion-ordered association
list with unique keys: replace in place if the key exists, else append. -/
def dictInsert : List ((Nat × String) × Option String) → Nat × String → Option String →
    List ((Nat × String) × Option String)
  | [], k, v => [(k, v)]
  | kv :: rest, k, v => if kv.1 = k then (k, v) :: rest else kv :: dictInsert rest k v

/-- Python dict lookup on such an association list. -/
def dictGet (l : List ((Nat × String) × Option String)) (k : Nat × String) :
    Option (Option String) :=
  (l.find? (fun kv => decide (kv.1 = k))).map (fun kv => kv.2)

/-- The `updates` dict built by `DSDAgent.apply_mapping`
(src/dsd_agent/agent.py lines 286-288):
`updates[(mapping_result.slide_index, ph.shape_name)] = comp.name` for each
mapped pair in order. -/
def buildUpdates (mr : MappingResult) : List ((Nat × String) × Option String) :=
  mr.mappings.foldl (fun acc pr => dictInsert acc (mr.slide_index, pr.1.shape_name) pr.2.name) []

/-- Mirrors `DSDAgent.apply_mapping` (src/dsd_agent/agent.py lines 281-290):
build the updates dict and hand it to `update_placeholders_batch`. -/
def apply_mapping (d : DSDDocument) (mr : MappingResult) : Option Nat × DSDDocument :=
  update_placeholders_batch d (buildUpdates mr)

/-- First-occurrence deduplication, the key order a Python dict build
produces from a key list. -/
def pyDedup {α : Type} [BEq α] [LawfulBEq α] (l : List α) : List α :=
  l.foldl (fun acc k => if k ∈ acc then acc else acc ++ [k]) []

/-- A Python value as produced by `json.loads`: `null` is Python `None`,
objects are dicts (unique keys, insertion ordered — `json.loads` keeps the
last value for a duplicated key). -/
inductive Json where
  | null
  | bool (b : Bool)
  | num (q : Rat)
  | str (s : String)
  | arr (elems : List Json)
  | obj (entries : List (String × Json))

/-- Exceptions that can escape the parse stage and the entry loop of
`DSDAgent.create_mapping`. -/
inductive AgentErr where
  | valueError (msg : String)
  | jsonDecodeError
  | attributeError
  | typeError
  deriving DecidableEq, Repr

/-- The opening brace character, "\x7b". -/
def lbrace : Char := Char.ofNat 123

/-- The closing brace character, "\x7d". -/
def rbrace : Char := Char.ofNat 125

/-- Fuel-driven splitter equal to Python `s.split(sep)` for a nonempty
separator: non-overlapping leftmost matches; the accumulator holds the
current part reversed.  The fuel is at least `rest.length + 1` at every
call site, so the fuel-exhaustion branch is never taken. -/
def splitOnFuel (sep : List Char) : Nat → List Char → List Char → List (List Char)
  | 0, rest, acc => [acc.reverse ++ rest]
  | _ + 1, [], acc => [acc.reverse]
  | fuel + 1, c :: cs, acc =>
    if sep.isPrefixOf (c :: cs) then
      acc.reverse :: splitOnFuel sep fuel ((c :: cs).drop sep.length) []
    else splitOnFuel sep fuel cs (c :: acc)

/-- Python `s.split(sep)` for a nonempty separator. -/
def pySplit (s sep : String) : List String :=
  (splitOnFuel sep.data (s.data.length + 1) s.data []).map String.mk

/-- Python `lst[i]` on the result of a split, guarded by containment at every
use site (index 0 always exists because a split is never empty). -/
def pyPart (parts : List String) (i : Nat) : String :=
  (parts.get? i).getD ""

/-- The code-fence stripping of `DSDAgent.create_mapping`
(src/dsd_agent/agent.py lines 227-230):
if "```json" occurs, keep what is between its first occurrence and the next
"```"; else if "```" occurs, keep what is between its first two occurrences;
else keep the text unchanged. -/
def stripFences (s : String) : String :=
  if pyContains s "```json" then
    pyPart (pySplit (pyPart (pySplit s "```json") 1) "```") 0
  else if pyContains s "```" then
    pyPart (pySplit (pyPart (pySplit s "```") 1) "```") 0
  else s

/-- The fallback `re.search(r'\x7b[\s\S]*\x7d', response_text)`
(src/dsd_agent/agent.py line 234): the greedy match runs from the first
opening brace to the last closing brace provided the latter comes strictly
later; otherwise there is no match. -/
def braceSpan (s : String) : Option String :=
  let cs := s.data
  let i := (cs.takeWhile (fun ch => decide (ch ≠ lbrace))).length
  let jRev := (cs.reverse.takeWhile (fun ch => decide (ch ≠ rbrace))).length
  if i + jRev + 1 < cs.length then some (String.mk ((cs.drop i).take (cs.length - jRev - i)))
  else none

/-- The parse stage of `DSDAgent.create_mapping` (src/dsd_agent/agent.py
lines 225-238), parameterized by the behavior `loads` of `json.loads`
(`none` = `json.JSONDecodeError`): strip fences, try
`json.loads(response_text.strip())`; on decode failure search for a braced
span and retry, a second decode failure propagating as `JSONDecodeError`;
with no braced span raise
`ValueError(f"Could not parse mapping response: ...")` carrying the first
500 characters of the (fence-stripped) response text. -/
def parseStage (loads : String → Option Json) (response_text : String) : Except AgentErr Json :=
  let t := stripFences response_text
  match loads (pyStrip t) with
  | some d => .ok d
  | none =>
    match braceSpan t with
    | some m =>
      match loads m with
      | some d => .ok d
      | none => .error .jsonDecodeError
    | none => .error (.valueError ("Could not parse mapping response: " ++ pyTake t 500))

/-- Python `m.get(k, dflt)`: `AttributeError` when `m` is not a dict, else
the value of the (unique) key `k`, defaulting to `dflt`. -/
def jget (j : Json) (k : String) (dflt : Json) : Except AgentErr Json :=
  match j with
  | .obj kvs => .ok (((kvs.find? (fun kv => decide (kv.1 = k))).map (fun kv => kv.2)).getD dflt)
  | _ => .error .attributeError

/-- Python `for m in x`: lists iterate their elements, strings their
characters, dicts their keys; numbers, booleans and `None` raise
`TypeError`. -/
def pyIter : Json → Except AgentErr (List Json)
  | .arr xs => .ok xs
  | .str s => .ok (s.data.map (fun ch => .str (String.mk [ch])))
  | .obj kvs => .ok (kvs.map (fun kv => .str kv.1))
  | _ => .error .typeError

/-- String payload of a Json value, `none` for every non-string value: a
non-string value never equals a string dict key, so for the lookups the
loop performs it behaves like Python `None`. -/
def asOptStr : Json → Option String
  | .str s => some s
  | _ => none

/-- String payload defaulting to "" (the reasoning field, whose default in
`m.get("reasoning", "")` is the empty string). -/
def asStrDefault : Json → String
  | .str s => s
  | _ => ""

/-- Reading one entry of the mappings list: `m.get("shape_name")`,
`m.get("component_name")` and `m.get("reasoning", "")` all raise
`AttributeError` when `m` is not a dict. -/
def toRawEntry (m : Json) : Except AgentErr RawEntry := do
  let sn ← jget m "shape_name" .null
  let cn ← jget m "component_name" .null
  let rs ← jget m "reasoning" (.str "")
  .ok { shape_name := asOptStr sn, component_name := asOptStr cn, reasoning := asStrDefault rs }

/-- Mirrors `DSDAgent.create_mapping` from the raw LLM response text to the
`MappingResult` (src/dsd_agent/agent.py lines 223-279), parameterized by
the behavior of `json.loads`: parse stage, then `data.get("mappings", [])`,
then iterate and read the entries, then reconcile.  Any raised exception
aborts the call, so no partial `MappingResult` escapes. -/
def create_mapping (loads : String → Option Json) (response_text : String)
    (slide : ArchitectureSlide) (components : List SystemComponent) :
    Except AgentErr MappingResult := do
  let data ← parseStage loads response_text
  let ms ← jget data "mappings" (.arr [])
  let items ← pyIter ms
  let entries ← items.mapM toRawEntry
  .ok (reconcile slide components entries)

/-! Concrete data used by the witnesses and counterexamples.  Coordinates
are whole numbers so that every computation is kernel-reducible. -/

/-- Example placeholder "ph1". -/
def ph1 : Placeholder :=
  { slide_index := 0, slide_title := "Arch", shape_name := "ph1", text := "lorem ipsum"
    left := 0, top := 0, width := 1, height := 1, row_group := 0 }

/-- Example placeholder "ph2". -/
def ph2 : Placeholder :=
  { slide_index := 0, slide_title := "Arch", shape_name := "ph2", text := "lorem ipsum"
    left := 1, top := 0, width := 1, height := 1, row_group := 0 }

/-- Example catalog component "A". -/
def compA : SystemComponent := { name := some "A", category := "integration", description := "", layer := "" }

/-- Example catalog component "B". -/
def compB : SystemComponent := { name := some "B", category := "core_banking", description := "", layer := "" }

/-- Catalog component named "API Gateway", as in the spec scenario. -/
def compGateway : SystemComponent :=
  { name := some "API Gateway", category := "integration", description := "", layer := "" }

/-- Example slide holding only "ph1". -/
def slideOne : ArchitectureSlide := { index := 0, title := "Arch", placeholders := [ph1] }

/-- Example slide holding "ph1" and "ph2". -/
def slideTwo : ArchitectureSlide := { index := 0, title := "Arch", placeholders := [ph1, ph2] }

/-- Slide with no placeholders, used by the parse-stage examples. -/
def emptySlide : ArchitectureSlide := { index := 0, title := "", placeholders := [] }

/-- Raw entry mapping "ph1" to "A". -/
def entry1A : RawEntry := { shape_name := some "ph1", component_name := some "A", reasoning := "" }

/-- Raw entry mapping "ph1" to "B". -/
def entry1B : RawEntry := { shape_name := some "ph1", component_name := some "B", reasoning := "" }

/-- Raw entry mapping "ph1" to "API Gateway". -/
def entry1G : RawEntry :=
  { shape_name := some "ph1", component_name := some "API Gateway", reasoning := "" }

/-- Raw entry mapping "ph2" to the non-catalog name "Legacy ESB". -/
def entry2L : RawEntry :=
  { shape_name := some "ph2", component_name := some "Legacy ESB", reasoning := "the middle tier" }

/-- Raw entry naming the unknown placeholder "ph9". -/
def entry9 : RawEntry :=
  { shape_name := some "ph9", component_name := some "API Gateway", reasoning := "" }

/-- Document shape named "ph1" with a single one-run paragraph. -/
def shapePh1 : Shape :=
  { name := "ph1", is_placeholder := false, has_text_frame := true
    left := 0, top := 0, width := 914400, height := 914400, paragraphs := [[some "lorem"]] }

/-- One-slide document containing `shapePh1`. -/
def docOne : DSDDocument := { slides := [{ shapes := [shapePh1] }], _architecture_slides := none }

/-- State of `docOne` after writing text `t` into the run of "ph1". -/
def docOneWith (t : Option String) : DSDDocument :=
  { slides := [{ shapes := [{ shapePh1 with paragraphs := [[t]] }] }], _architecture_slides := none }

/-- Mapping result with the single pair ("ph1", "A"). -/
def mrOne : MappingResult :=
  { slide_index := 0, slide_title := "Arch", mappings := [(ph1, compA)]
    unmapped_placeholders := [], unmapped_components := [] }

/-- Scenario placeholder at top `t` (spec section 8). -/
def scenarioPh (t : Rat) : Placeholder :=
  { slide_index := 0, slide_title := "s", shape_name := "n", text := "lorem"
    left := 0, top := t, width := 1, height := 1, row_group := 0 }

/-- The spec scenario: placeholders at tops 0.1, 0.15, 3.0, 3.05, 6.2. -/
def scenarioPlaceholders : List Placeholder :=
  [scenarioPh (1/10), scenarioPh (3/20), scenarioPh 3, scenarioPh (61/20), scenarioPh (31/5)]

/-- Placeholder named "a" at the origin. -/
def tieA : Placeholder :=
  { slide_index := 0, slide_title := "s", shape_name := "a", text := "lorem"
    left := 0, top := 0, width := 1, height := 1, row_group := 0 }

/-- Placeholder named "b" at the origin: same `(top, left)` as `tieA`. -/
def tieB : Placeholder :=
  { slide_index := 0, slide_title := "s", shape_name := "b", text := "lorem"
    left := 0, top := 0, width := 1, height := 1, row_group := 0 }

/-- Placeholder named "c" at top 5, in a separate row. -/
def rowC : Placeholder :=
  { slide_index := 0, slide_title := "s", shape_name := "c", text := "lorem"
    left := 0, top := 5, width := 1, height := 1, row_group := 0 }

/-- A `json.loads` behavior that fails on every input, as on "hello". -/
def loadsNone : String → Option Json := fun _ => none

/-- A `json.loads` behavior agreeing with `json.loads` on the input "42":
the decoded Python value is the number 42. -/
def loadsNum : String → Option Json := fun s => if s = "42" then some (.num 42) else none

/-- The pair contributed by one raw entry: `none` when the entry is dropped
(unknown or missing identifier), otherwise the placeholder found by
`ph_by_name` together with the resolved or synthesized component.  This is
the per-entry content of `reconcileStep`; `foldl_mappings` below proves the
loop accumulates exactly these pairs. -/
def entryPair (phs : List Placeholder) (comps : List SystemComponent) (e : RawEntry) :
    Option (Placeholder × SystemComponent) :=
  match e.shape_name with
  | none => none
  | some s =>
    (ph_by_name phs s).map
      (fun ph => (ph, (comp_by_name comps e.component_name).getD (synthComponent e)))

/-- Distinct `(row_group, left)` keys, the tie condition of the final sort. -/
def keyNe (a b : Placeholder) : Prop :=
  (a.row_group, a.left) ≠ (b.row_group, b.left)

instance : DecidableRel keyNe := fun a b =>
  inferInstanceAs (Decidable ((a.row_group, a.left) ≠ (b.row_group, b.left)))

end DSD

namespace DSD


/-! Helper lemmas about the dict lookups of the reconciler. -/

theorem ph_by_name_eq_some {phs : List Placeholder} {s : String} {ph : Placeholder}
    (h : ph_by_name phs s = some ph) : ph.shape_name = s ∧ ph ∈ phs := by
  unfold ph_by_name at h
  have h1 := List.find?_some h
  simp only [decide_eq_true_eq] at h1
  exact ⟨h1, List.mem_reverse.mp (List.mem_of_find?_eq_some h)⟩

theorem ph_by_name_isSome_of_mem {phs : List Placeholder} {ph : Placeholder}
    (h : ph ∈ phs) : (ph_by_name phs ph.shape_name).isSome := by
  rw [ph_by_name, List.find?_isSome]
  exact ⟨ph, List.mem_reverse.mpr h, by simp⟩

theorem ph_by_name_self {phs : List Placeholder} {ph : Placeholder}
    (hn : (phs.map Placeholder.shape_name).Nodup) (hm : ph ∈ phs) :
    ph_by_name phs ph.shape_name = some ph := by
  cases hfind : ph_by_name phs ph.shape_name with
  | none =>
    have := ph_by_name_isSome_of_mem hm
    rw [hfind] at this
    simp at this
  | some ph' =>
    obtain ⟨hname, hmem⟩ := ph_by_name_eq_some hfind
    have : ph' = ph := List.inj_on_of_nodup_map hn hmem hm hname
    rw [this]

theorem comp_by_name_eq_some {comps : List SystemComponent} {k : Option String}
    {c : SystemComponent} (h : comp_by_name comps k = some c) : c.name = k ∧ c ∈ comps := by
  unfold comp_by_name at h
  have h1 := List.find?_some h
  simp only [decide_eq_true_eq] at h1
  exact ⟨h1, List.mem_reverse.mp (List.mem_of_find?_eq_some h)⟩

theorem comp_by_name_isSome_of_mem {comps : List SystemComponent} {c : SystemComponent}
    (h : c ∈ comps) : (comp_by_name comps c.name).isSome := by
  rw [comp_by_name, List.find?_isSome]
  exact ⟨c, List.mem_reverse.mpr h, by simp⟩

theorem comp_by_name_self {comps : List SystemComponent} {c : SystemComponent}
    (hn : (comps.map SystemComponent.name).Nodup) (hm : c ∈ comps) :
    comp_by_name comps c.name = some c := by
  cases hfind : comp_by_name comps c.name with
  | none =>
    have := comp_by_name_isSome_of_mem hm
    rw [hfind] at this
    simp at this
  | some c' =>
    obtain ⟨hname, hmem⟩ := comp_by_name_eq_some hfind
    have : c' = c := List.inj_on_of_nodup_map hn hmem hm hname
    rw [this]

/-! Case equations for one loop iteration. -/

theorem reconcileStep_none (phs : List Placeholder) (comps : List SystemComponent)
    (st : ReconState) (e : RawEntry) (h : e.shape_name = none) :
    reconcileStep phs comps st e = st := by
  simp only [reconcileStep, h]

theorem reconcileStep_unknown (phs : List Placeholder) (comps : List SystemComponent)
    (st : ReconState) (e : RawEntry) (s : String) (h1 : e.shape_name = some s)
    (h2 : ph_by_name phs s = none) :
    reconcileStep phs comps st e = st := by
  simp only [reconcileStep, h1, h2]

theorem reconcileStep_found (phs : List Placeholder) (comps : List SystemComponent)
    (st : ReconState) (e : RawEntry) (s : String) (ph : Placeholder)
    (h1 : e.shape_name = some s) (h2 : ph_by_name phs s = some ph) :
    reconcileStep phs comps st e =
      { mappings := st.mappings ++ [(ph, (comp_by_name comps e.component_name).getD (synthComponent e))]
        mapped_shapes := s :: st.mapped_shapes
        mapped_components :=
          if (comp_by_name comps e.component_name).isSome then
            e.component_name :: st.mapped_components
          else st.mapped_components } := by
  simp only [reconcileStep, h1, h2]

theorem entryPair_none (phs : List Placeholder) (comps : List SystemComponent)
    (e : RawEntry) (h : e.shape_name = none) : entryPair phs comps e = none := by
  simp only [entryPair, h]

theorem entryPair_unknown (phs : List Placeholder) (comps : List SystemComponent)
    (e : RawEntry) (s : String) (h1 : e.shape_name = some s)
    (h2 : ph_by_name phs s = none) : entryPair phs comps e = none := by
  simp only [entryPair, h1, h2]
  rfl

theorem entryPair_found (phs : List Placeholder) (comps : List SystemComponent)
    (e : RawEntry) (s : String) (ph : Placeholder) (h1 : e.shape_name = some s)
    (h2 : ph_by_name phs s = some ph) :
    entryPair phs comps e =
      some (ph, (comp_by_name comps e.component_name).getD (synthComponent e)) := by
  simp only [entryPair, h1, h2]
  rfl

theorem acceptedEntry_none (phs : List Placeholder) (e : RawEntry)
    (h : e.shape_name = none) : acceptedEntry phs e = false := by
  simp only [acceptedEntry, h]

theorem acceptedEntry_some (phs : List Placeholder) (e : RawEntry) (s : String)
    (h : e.shape_name = some s) : acceptedEntry phs e = (ph_by_name phs s).isSome := by
  simp only [acceptedEntry, h]

/-! Characterization of the reconciliation loop as a fold. -/

theorem foldl_mappings (phs : List Placeholder) (comps : List SystemComponent)
    (l : List RawEntry) (st : ReconState) :
    (l.foldl (reconcileStep phs comps) st).mappings =
      st.mappings ++ l.filterMap (entryPair phs comps) := by
  induction l generalizing st with
  | nil => simp
  | cons e l ih =>
    rw [List.foldl_cons, List.filterMap_cons]
    cases hsn : e.shape_name with
    | none =>
      rw [reconcileStep_none _ _ _ _ hsn, entryPair_none _ _ _ hsn, ih]
    | some s =>
      cases hph : ph_by_name phs s with
      | none =>
        rw [reconcileStep_unknown _ _ _ _ _ hsn hph, entryPair_unknown _ _ _ _ hsn hph, ih]
      | some ph =>
        rw [reconcileStep_found _ _ _ _ _ _ hsn hph, entryPair_found _ _ _ _ _ hsn hph, ih]
        simp

theorem mem_mapped_shapes (phs : List Placeholder) (comps : List SystemComponent)
    (l : List RawEntry) (st : ReconState) (s : String) :
    s ∈ (l.foldl (reconcileStep phs comps) st).mapped_shapes ↔
      s ∈ st.mapped_shapes ∨
        ∃ e ∈ l, e.shape_name = some s ∧ (ph_by_name phs s).isSome := by
  induction l generalizing st with
  | nil => simp
  | cons e l ih =>
    rw [List.foldl_cons]
    simp only [List.mem_cons, exists_eq_or_imp]
    cases hsn : e.shape_name with
    | none =>
      rw [reconcileStep_none _ _ _ _ hsn, ih]
      simp
    | some s' =>
      by_cases hss : s = s'
      · subst hss
        cases hph : ph_by_name phs s with
        | none =>
          rw [reconcileStep_unknown _ _ _ _ _ hsn hph, ih]
          simp [hph]
        | some ph =>
          rw [reconcileStep_found _ _ _ _ _ _ hsn hph, ih]
          simp [hph, List.mem_cons]
      · have hss2 : ¬ (s' = s) := fun h => hss h.symm
        cases hph : ph_by_name phs s' with
        | none =>
          rw [reconcileStep_unknown _ _ _ _ _ hsn hph, ih]
          simp [hss2]
        | some ph =>
          rw [reconcileStep_found _ _ _ _ _ _ hsn hph, ih]
          simp [hss, hss2, List.mem_cons]

theorem mem_mapped_components (phs : List Placeholder) (comps : List SystemComponent)
    (l : List RawEntry) (st : ReconState) (k : Option String) :
    k ∈ (l.foldl (reconcileStep phs comps) st).mapped_components ↔
      k ∈ st.mapped_components ∨
        ∃ e ∈ l, acceptedEntry phs e = true ∧ e.component_name = k ∧
          (comp_by_name comps k).isSome := by
  induction l generalizing st with
  | nil => simp
  | cons e l ih =>
    rw [List.foldl_cons]
    simp only [List.mem_cons, exists_eq_or_imp]
    cases hsn : e.shape_name with
    | none =>
      rw [reconcileStep_none _ _ _ _ hsn, ih, acceptedEntry_none _ _ hsn]
      simp
    | some s' =>
      cases hph : ph_by_name phs s' with
      | none =>
        rw [reconcileStep_unknown _ _ _ _ _ hsn hph, ih, acceptedEntry_some _ _ _ hsn, hph]
        simp
      | some ph =>
        rw [reconcileStep_found _ _ _ _ _ _ hsn hph, acceptedEntry_some _ _ _ hsn, hph]
        by_cases hcb : (comp_by_name comps e.component_name).isSome
        · rw [if_pos hcb, ih]
          simp only [List.mem_cons]
          by_cases hk : k = e.component_name
          · subst hk
            simp [hcb]
          · have hk2 : ¬ (e.component_name = k) := fun h => hk h.symm
            simp [hk, hk2]
        · rw [if_neg hcb, ih]
          by_cases hk : k = e.component_name
          · subst hk
            simp [hcb]
          · have hk2 : ¬ (e.component_name = k) := fun h => hk h.symm
            simp [hk2]

/-! Reconcile-level corollaries. -/

theorem entryPair_isSome (phs : List Placeholder) (comps : List SystemComponent) (e : RawEntry) :
    (entryPair phs comps e).isSome = acceptedEntry phs e := by
  cases hsn : e.shape_name with
  | none => rw [entryPair_none _ _ _ hsn, acceptedEntry_none _ _ hsn]; rfl
  | some s =>
    rw [acceptedEntry_some _ _ _ hsn]
    cases hph : ph_by_name phs s with
    | none =>
      rw [entryPair_unknown _ _ _ _ hsn hph]
      rfl
    | some ph =>
      rw [entryPair_found _ _ _ _ _ hsn hph]
      rfl

theorem entryPair_spec {phs : List Placeholder} {comps : List SystemComponent} {e : RawEntry}
    {pr : Placeholder × SystemComponent} (h : entryPair phs comps e = some pr) :
    e.shape_name = some pr.1.shape_name ∧ ph_by_name phs pr.1.shape_name = some pr.1 ∧
      pr.2 = (comp_by_name comps e.component_name).getD (synthComponent e) := by
  cases hsn : e.shape_name with
  | none => rw [entryPair_none _ _ _ hsn] at h; cases h
  | some s =>
    cases hph : ph_by_name phs s with
    | none => rw [entryPair_unknown _ _ _ _ hsn hph] at h; cases h
    | some ph =>
      rw [entryPair_found _ _ _ _ _ hsn hph] at h
      obtain ⟨hname, _⟩ := ph_by_name_eq_some hph
      cases h
      refine ⟨?_, ?_, rfl⟩
      · show some s = some ph.shape_name
        rw [hname]
      · show ph_by_name phs ph.shape_name = some ph
        rw [hname, hph]

theorem entryPair_comp {phs : List Placeholder} {comps : List SystemComponent} {e : RawEntry}
    {pr : Placeholder × SystemComponent} (h : entryPair phs comps e = some pr) :
    (comp_by_name comps pr.2.name = some pr.2) ∨
      (comp_by_name comps pr.2.name = none ∧ pr.2 = synthComponent e ∧
        pr.2.name = e.component_name) := by
  obtain ⟨_, _, hcomp⟩ := entryPair_spec h
  cases hcb : comp_by_name comps e.component_name with
  | some c =>
    rw [hcb] at hcomp
    simp only [Option.getD_some] at hcomp
    obtain ⟨hcn, _⟩ := comp_by_name_eq_some hcb
    left
    rw [hcomp, hcn, hcb]
  | none =>
    rw [hcb] at hcomp
    simp only [Option.getD_none] at hcomp
    right
    refine ⟨?_, hcomp, ?_⟩
    · rw [hcomp]
      exact hcb
    · rw [hcomp]
      rfl

theorem reconcile_mappings (slide : ArchitectureSlide) (comps : List SystemComponent)
    (entries : List RawEntry) :
    (reconcile slide comps entries).mappings =
      entries.filterMap (entryPair slide.placeholders comps) := by
  have h : (reconcile slide comps entries).mappings =
      (entries.foldl (reconcileStep slide.placeholders comps) ⟨[], [], []⟩).mappings := rfl
  rw [h, foldl_mappings]
  rfl

theorem reconcile_pair_mem {slide : ArchitectureSlide} {comps : List SystemComponent}
    {entries : List RawEntry} {pr : Placeholder × SystemComponent} :
    pr ∈ (reconcile slide comps entries).mappings ↔
      ∃ e ∈ entries, entryPair slide.placeholders comps e = some pr := by
  rw [reconcile_mappings]
  exact List.mem_filterMap

theorem reconcile_length (slide : ArchitectureSlide) (comps : List SystemComponent)
    (entries : List RawEntry) :
    (reconcile slide comps entries).mappings.length =
      entries.countP (acceptedEntry slide.placeholders) := by
  rw [reconcile_mappings, List.length_filterMap_eq_countP]
  exact List.countP_congr (fun e _ => by rw [entryPair_isSome])

theorem mem_unmapped_ph {slide : ArchitectureSlide} {comps : List SystemComponent}
    {entries : List RawEntry} {ph : Placeholder} :
    ph ∈ (reconcile slide comps entries).unmapped_placeholders ↔
      ph ∈ slide.placeholders ∧
        ¬ ∃ e ∈ entries, e.shape_name = some ph.shape_name ∧
            (ph_by_name slide.placeholders ph.shape_name).isSome := by
  have h : (reconcile slide comps entries).unmapped_placeholders =
      slide.placeholders.filter (fun p => decide (p.shape_name ∉
        (entries.foldl (reconcileStep slide.placeholders comps) ⟨[], [], []⟩).mapped_shapes)) := rfl
  rw [h]
  simp only [List.mem_filter, decide_eq_true_eq]
  rw [mem_mapped_shapes]
  simp

theorem mem_unmapped_comp {slide : ArchitectureSlide} {comps : List SystemComponent}
    {entries : List RawEntry} {c : SystemComponent} :
    c ∈ (reconcile slide comps entries).unmapped_components ↔
      c ∈ comps ∧
        ¬ ∃ e ∈ entries, acceptedEntry slide.placeholders e = true ∧
            e.component_name = c.name ∧ (comp_by_name comps c.name).isSome := by
  have h : (reconcile slide comps entries).unmapped_components =
      comps.filter (fun x => decide (x.name ∉
        (entries.foldl (reconcileStep slide.placeholders comps) ⟨[], [], []⟩).mapped_components)) := rfl
  rw [h]
  simp only [List.mem_filter, decide_eq_true_eq]
  rw [mem_mapped_components]
  simp

/-! Claim C1. -/

/-- Claim C1 counterexample: with the single placeholder "ph1" and a raw
response naming "ph1" twice, the mappings list of the produced
`MappingResult` holds two pairs for the same placeholder, refuting "the
mappings list contains at most one pair per distinct placeholder". -/
theorem C1_counterexample :
    ((reconcile slideOne [compA] [entry1A, entry1A]).mappings.map
        (fun pr => pr.1.shape_name) = ["ph1", "ph1"]) ∧
      ¬ List.Pairwise (fun pr qr : Placeholder × SystemComponent => pr.1 ≠ qr.1)
          (reconcile slideOne [compA] [entry1A, entry1A]).mappings := by
  decide

/-- Claim C1 (amended): the reconciler records one pair per raw entry whose
identifier names a slide placeholder, so a duplicated identifier yields
multiple pairs; provided shape names and catalog names are duplicate-free,
every placeholder appears in some mapping exactly when it is not in
`unmapped_placeholders`, and every catalog component appears in some
mapping exactly when it is not in `unmapped_components`. -/
theorem C1_partition (slide : ArchitectureSlide) (comps : List SystemComponent)
    (entries : List RawEntry)
    (hnp : (slide.placeholders.map Placeholder.shape_name).Nodup)
    (hnc : (comps.map SystemComponent.name).Nodup) :
    (∀ ph ∈ slide.placeholders,
        (∃ pr ∈ (reconcile slide comps entries).mappings, pr.1 = ph) ↔
          ph ∉ (reconcile slide comps entries).unmapped_placeholders) ∧
    (∀ c ∈ comps,
        (∃ pr ∈ (reconcile slide comps entries).mappings, pr.2 = c) ↔
          c ∉ (reconcile slide comps entries).unmapped_components) ∧
    (reconcile slide comps entries).mappings.length =
      entries.countP (acceptedEntry slide.placeholders) := by
  refine ⟨?_, ?_, reconcile_length _ _ _⟩
  · intro ph hmem
    have hrhs : (ph ∉ (reconcile slide comps entries).unmapped_placeholders) ↔
        ∃ e ∈ entries, e.shape_name = some ph.shape_name ∧
          (ph_by_name slide.placeholders ph.shape_name).isSome := by
      rw [mem_unmapped_ph]
      simp [hmem, Option.isSome_iff_ne_none]
    rw [hrhs]
    constructor
    · rintro ⟨pr, hpr, hpr1⟩
      obtain ⟨e, he, hep⟩ := reconcile_pair_mem.mp hpr
      obtain ⟨hs, hlook, _⟩ := entryPair_spec hep
      rw [hpr1] at hs hlook
      exact ⟨e, he, hs, by rw [hlook]; rfl⟩
    · rintro ⟨e, he, hs, _⟩
      have hlook := ph_by_name_self hnp hmem
      exact ⟨(ph, (comp_by_name comps e.component_name).getD (synthComponent e)),
        reconcile_pair_mem.mpr ⟨e, he, entryPair_found _ _ _ _ _ hs hlook⟩, rfl⟩
  · intro c hmem
    have hrhs : (c ∉ (reconcile slide comps entries).unmapped_components) ↔
        ∃ e ∈ entries, acceptedEntry slide.placeholders e = true ∧
          e.component_name = c.name ∧ (comp_by_name comps c.name).isSome := by
      rw [mem_unmapped_comp]
      simp [hmem, Option.isSome_iff_ne_none]
    rw [hrhs]
    constructor
    · rintro ⟨pr, hpr, hpr2⟩
      obtain ⟨e, he, hep⟩ := reconcile_pair_mem.mp hpr
      obtain ⟨hs, hlook, hcomp⟩ := entryPair_spec hep
      have hacc : acceptedEntry slide.placeholders e = true := by
        rw [acceptedEntry_some _ _ _ hs, hlook]
        rfl
      cases hcb : comp_by_name comps e.component_name with
      | some c0 =>
        rw [hcb] at hcomp
        simp only [Option.getD_some] at hcomp
        obtain ⟨hc0name, _⟩ := comp_by_name_eq_some hcb
        have hcc : c0 = c := by rw [← hcomp, hpr2]
        refine ⟨e, he, hacc, ?_, ?_⟩
        · rw [← hcc]
          exact hc0name.symm
        · rw [← hcc, hc0name, hcb]
          rfl
      | none =>
        rw [hcb] at hcomp
        simp only [Option.getD_none] at hcomp
        exfalso
        have hsome := comp_by_name_isSome_of_mem hmem
        have hcn : c.name = e.component_name := by rw [← hpr2, hcomp]; rfl
        rw [hcn, hcb] at hsome
        simp at hsome
    · rintro ⟨e, he, hacc, hcn, _⟩
      cases hsn : e.shape_name with
      | none =>
        rw [acceptedEntry_none _ _ hsn] at hacc
        cases hacc
      | some s =>
        rw [acceptedEntry_some _ _ _ hsn] at hacc
        obtain ⟨ph0, hph0⟩ := Option.isSome_iff_exists.mp hacc
        have hc : comp_by_name comps e.component_name = some c := by
          rw [hcn]
          exact comp_by_name_self hnc hmem
        refine ⟨(ph0, c), reconcile_pair_mem.mpr ⟨e, he, ?_⟩, rfl⟩
        rw [entryPair_found _ _ _ _ _ hsn hph0, hc]
        rfl

/-- Claim C1 (amended) witness: the amended partition at the duplicate-entry
input of the counterexample. -/
theorem C1_witness :
    (∀ ph ∈ slideOne.placeholders,
        (∃ pr ∈ (reconcile slideOne [compA] [entry1A, entry1A]).mappings, pr.1 = ph) ↔
          ph ∉ (reconcile slideOne [compA] [entry1A, entry1A]).unmapped_placeholders) ∧
    (∀ c ∈ [compA],
        (∃ pr ∈ (reconcile slideOne [compA] [entry1A, entry1A]).mappings, pr.2 = c) ↔
          c ∉ (reconcile slideOne [compA] [entry1A, entry1A]).unmapped_components) ∧
    (reconcile slideOne [compA] [entry1A, entry1A]).mappings.length =
      [entry1A, entry1A].countP (acceptedEntry slideOne.placeholders) :=
  C1_partition slideOne [compA] [entry1A, entry1A] (by decide) (by decide)

/-! Claim C7. -/

/-- Claim C7: a raw entry whose identifier (including a missing identifier)
matches no known placeholder is silently dropped, and the whole
`MappingResult` is the one obtained with that entry absent. -/
theorem C7_unknown_identifier_dropped (slide : ArchitectureSlide)
    (comps : List SystemComponent) (l₁ l₂ : List RawEntry) (e : RawEntry)
    (h : ∀ s, e.shape_name = some s → ph_by_name slide.placeholders s = none) :
    reconcile slide comps (l₁ ++ e :: l₂) = reconcile slide comps (l₁ ++ l₂) := by
  have hstep : ∀ st, reconcileStep slide.placeholders comps st e = st := by
    intro st
    cases hsn : e.shape_name with
    | none => exact reconcileStep_none _ _ _ _ hsn
    | some s => exact reconcileStep_unknown _ _ _ _ _ hsn (h s hsn)
  have hfold : (l₁ ++ e :: l₂).foldl (reconcileStep slide.placeholders comps) ⟨[], [], []⟩ =
      (l₁ ++ l₂).foldl (reconcileStep slide.placeholders comps) ⟨[], [], []⟩ := by
    rw [List.foldl_append, List.foldl_append, List.foldl_cons, hstep]
  unfold reconcile
  rw [hfold]

/-- Claim C7 witness: the spec scenario entry naming the unknown placeholder
"ph9" is dropped without affecting the rest. -/
theorem C7_witness :
    reconcile slideTwo [compGateway] [entry1G, entry9] =
      reconcile slideTwo [compGateway] [entry1G] :=
  C7_unknown_identifier_dropped slideTwo [compGateway] [entry1G] [] entry9
    (by
      intro s hs
      have h9 : some "ph9" = some s := hs
      cases h9
      decide)

/-! Claim C6. -/

/-- Claim C6: a raw entry with a known identifier whose display name matches
no catalog component yields a mapping to a synthesized component carrying
the display name verbatim, category "unknown" and the entry's free-text
rationale as description; the synthesized component is never in
`unmapped_components`. -/
theorem C6_synthesized_component (slide : ArchitectureSlide)
    (comps : List SystemComponent) (l₁ l₂ : List RawEntry) (e : RawEntry)
    (s : String) (ph : Placeholder)
    (h1 : e.shape_name = some s)
    (h2 : ph_by_name slide.placeholders s = some ph)
    (h3 : comp_by_name comps e.component_name = none) :
    (ph, synthComponent e) ∈ (reconcile slide comps (l₁ ++ e :: l₂)).mappings ∧
      (synthComponent e).name = e.component_name ∧
      (synthComponent e).category = "unknown" ∧
      (synthComponent e).description = e.reasoning ∧
      synthComponent e ∉ (reconcile slide comps (l₁ ++ e :: l₂)).unmapped_components := by
  refine ⟨?_, rfl, rfl, rfl, ?_⟩
  · apply reconcile_pair_mem.mpr
    refine ⟨e, by simp, ?_⟩
    rw [entryPair_found _ _ _ _ _ h1 h2, h3]
    rfl
  · intro hcon
    rw [mem_unmapped_comp] at hcon
    obtain ⟨hmem, _⟩ := hcon
    have hsome := comp_by_name_isSome_of_mem hmem
    rw [show (synthComponent e).name = e.component_name from rfl, h3] at hsome
    simp at hsome

/-- Claim C6 witness: the spec scenario entry mapping "ph2" to the
non-catalog name "Legacy ESB". -/
theorem C6_witness :
    (ph2, synthComponent entry2L) ∈
        (reconcile slideTwo [compGateway] ([entry1G] ++ entry2L :: [])).mappings ∧
      (synthComponent entry2L).name = entry2L.component_name ∧
      (synthComponent entry2L).category = "unknown" ∧
      (synthComponent entry2L).description = entry2L.reasoning ∧
      synthComponent entry2L ∉
        (reconcile slideTwo [compGateway] ([entry1G] ++ entry2L :: [])).unmapped_components :=
  C6_synthesized_component slideTwo [compGateway] [entry1G] [] entry2L "ph2" ph2
    (by decide) (by decide) (by decide)

/-! Claim C2. -/

theorem dictGet_cons (kv : (Nat × String) × Option String)
    (l : List ((Nat × String) × Option String)) (k : Nat × String) :
    dictGet (kv :: l) k = if kv.1 = k then some kv.2 else dictGet l k := by
  by_cases h : kv.1 = k
  · rw [if_pos h]
    unfold dictGet
    rw [List.find?_cons_of_pos _ (by simp [h])]
    rfl
  · rw [if_neg h]
    unfold dictGet
    rw [List.find?_cons_of_neg _ (by simp [h])]

theorem dictGet_dictInsert (l : List ((Nat × String) × Option String))
    (k k' : Nat × String) (v : Option String) :
    dictGet (dictInsert l k' v) k = if k = k' then some v else dictGet l k := by
  induction l with
  | nil =>
    show dictGet [(k', v)] k = _
    rw [dictGet_cons]
    by_cases hk : k = k'
    · rw [if_pos (show (k', v).1 = k from hk.symm), if_pos hk]
    · rw [if_neg (show ¬ (k', v).1 = k from fun h => hk h.symm), if_neg hk]
  | cons kv l ih =>
    show dictGet (if kv.1 = k' then (k', v) :: l else kv :: dictInsert l k' v) k =
      if k = k' then some v else dictGet (kv :: l) k
    by_cases h1 : kv.1 = k'
    · rw [if_pos h1, dictGet_cons, dictGet_cons]
      by_cases hk : k = k'
      · rw [if_pos (show (k', v).1 = k from hk.symm), if_pos hk]
      · rw [if_neg (show ¬ (k', v).1 = k from fun h => hk h.symm), if_neg hk,
          if_neg (show ¬ kv.1 = k from by rw [h1]; exact fun h => hk h.symm)]
    · rw [if_neg h1, dictGet_cons, dictGet_cons, ih]
      by_cases hk : kv.1 = k
      · by_cases hkk : k = k'
        · exact absurd (hk.trans hkk) h1
        · rw [if_pos hk, if_neg hkk, if_pos hk]
      · by_cases hkk : k = k'
        · rw [if_neg hk, if_pos hkk, if_pos hkk]
        · rw [if_neg hk, if_neg hkk, if_neg hkk, if_neg hk]

theorem buildUpdates_get_aux (si : Nat) (ms : List (Placeholder × SystemComponent))
    (acc : List ((Nat × String) × Option String)) (k : Nat × String) :
    dictGet (ms.foldl (fun a pr => dictInsert a (si, pr.1.shape_name) pr.2.name) acc) k =
      (ms.reverse.find? (fun pr => decide ((si, pr.1.shape_name) = k))).elim
        (dictGet acc k) (fun pr => some pr.2.name) := by
  induction ms generalizing acc with
  | nil => simp
  | cons pr ms ih =>
    rw [List.foldl_cons, ih, List.reverse_cons, List.find?_append]
    cases hf : ms.reverse.find? (fun pr => decide ((si, pr.1.shape_name) = k)) with
    | some q => rfl
    | none =>
      by_cases hk : (si, pr.1.shape_name) = k
      · simp [hk, dictGet_dictInsert]
      · have hk2 : ¬ k = (si, pr.1.shape_name) := fun h => hk h.symm
        simp [hk, hk2, dictGet_dictInsert]

/-- Claim C2 counterexample: a raw response that names "ph1" twice ("A",
then "B") produces two mapping pairs (the second is not a no-op), and
applying the result writes "B" — the LAST occurrence — into the document,
refuting "the mapping eventually applied ... is the one from the first
occurrence, never a later one". -/
theorem C2_counterexample :
    (reconcile slideOne [compA, compB] [entry1A, entry1B]).mappings.map
        (fun pr => pr.2.name) = [some "A", some "B"] ∧
      apply_mapping docOne (reconcile slideOne [compA, compB] [entry1A, entry1B]) =
        (some 1, docOneWith (some "B")) := by
  decide

/-- Claim C2 (amended): a later raw entry for an already-consumed identifier
is not a no-op — every accepted entry appends one more mapping pair — and
the text the applier writes for a placeholder is the component name of the
LAST pair carrying that placeholder's key, because the updates dict is
keyed by `(slide_index, shape_name)` and later assignments overwrite
earlier ones. -/
theorem C2_last_occurrence_wins :
    (∀ (mr : MappingResult) (k : Nat × String),
        dictGet (buildUpdates mr) k =
          (mr.mappings.reverse.find?
              (fun pr => decide ((mr.slide_index, pr.1.shape_name) = k))).map
            (fun pr => pr.2.name)) ∧
    (∀ (slide : ArchitectureSlide) (comps : List SystemComponent)
        (entries : List RawEntry) (e : RawEntry),
        acceptedEntry slide.placeholders e = true →
        (reconcile slide comps (entries ++ [e])).mappings.length =
          (reconcile slide comps entries).mappings.length + 1) := by
  constructor
  · intro mr k
    rw [buildUpdates, buildUpdates_get_aux]
    cases mr.mappings.reverse.find? (fun pr => decide ((mr.slide_index, pr.1.shape_name) = k)) with
    | none => rfl
    | some q => rfl
  · intro slide comps entries e hacc
    rw [reconcile_length, reconcile_length, List.countP_append]
    simp [hacc]

/-- Claim C2 (amended) witness: the duplicate-"ph1" input of the
counterexample instantiates both conjuncts. -/
theorem C2_witness :
    (dictGet (buildUpdates (reconcile slideOne [compA, compB] [entry1A, entry1B])) (0, "ph1") =
        ((reconcile slideOne [compA, compB] [entry1A, entry1B]).mappings.reverse.find?
            (fun pr => decide (((reconcile slideOne [compA, compB]
              [entry1A, entry1B]).slide_index, pr.1.shape_name) = (0, "ph1")))).map
          (fun pr => pr.2.name)) ∧
    (reconcile slideOne [compA] ([entry1A] ++ [entry1A])).mappings.length =
      (reconcile slideOne [compA] [entry1A]).mappings.length + 1 :=
  ⟨C2_last_occurrence_wins.1 (reconcile slideOne [compA, compB] [entry1A, entry1B]) (0, "ph1"),
    C2_last_occurrence_wins.2 slideOne [compA] [entry1A] entry1A (by decide)⟩

/-! Geometry: supporting lemmas for the row-group walk.  Placeholders with
equal tops always receive equal groups, which justifies modelling the
Python in-place mutation by the per-top lookup `rowGroupForTop`. -/

theorem walkAux_fst (c : Rat) (g : Nat) (ts : List Rat) :
    (walkAux c g ts).map Prod.fst = ts := by
  induction ts generalizing c g with
  | nil => rfl
  | cons t ts ih =>
    unfold walkAux
    by_cases h : |t - c| > 1/2
    · rw [if_pos h]
      simp [ih]
    · rw [if_neg h]
      simp [ih]

theorem mem_fst_of_mem_walkAux {c : Rat} {g : Nat} {ts : List Rat} {t : Rat} {h : Nat}
    (hm : (t, h) ∈ walkAux c g ts) : t ∈ ts := by
  have hmap := List.mem_map_of_mem Prod.fst hm
  rw [walkAux_fst] at hmap
  exact hmap

theorem walkAux_group_of_near (c : Rat) (g : Nat) (ts : List Rat)
    (hs : ts.Sorted (fun a b : Rat => a ≤ b)) (hc : ∀ x ∈ ts, c ≤ x) (t : Rat)
    (hnear : ¬ (|t - c| > 1/2)) :
    ∀ h, (t, h) ∈ walkAux c g ts → h = g := by
  induction ts with
  | nil =>
    intro h hm
    cases hm
  | cons u ts ih =>
    intro h hm
    have hsort := List.sorted_cons.mp hs
    unfold walkAux at hm
    by_cases hu : |u - c| > 1/2
    · rw [if_pos hu] at hm
      exfalso
      have hcu : c ≤ u := hc u (List.mem_cons_self _ _)
      have hgap : u - c > 1/2 := by
        rw [abs_of_nonneg (sub_nonneg.mpr hcu)] at hu
        exact hu
      rcases List.mem_cons.mp hm with he | hm'
      · have ht : t = u := congrArg Prod.fst he
        apply hnear
        rw [ht, abs_of_nonneg (sub_nonneg.mpr hcu)]
        exact hgap
      · have htu : u ≤ t := hsort.1 t (mem_fst_of_mem_walkAux hm')
        apply hnear
        have hct : c ≤ t := le_trans hcu htu
        rw [abs_of_nonneg (sub_nonneg.mpr hct)]
        linarith
    · rw [if_neg hu] at hm
      rcases List.mem_cons.mp hm with he | hm'
      · exact congrArg Prod.snd he
      · exact ih hsort.2 (fun x hx => hc x (List.mem_cons_of_mem _ hx)) h hm'

theorem walkAux_group_unique (c : Rat) (g : Nat) (ts : List Rat)
    (hs : ts.Sorted (fun a b : Rat => a ≤ b)) (hc : ∀ x ∈ ts, c ≤ x) (t : Rat)
    (g₁ g₂ : Nat) (h₁ : (t, g₁) ∈ walkAux c g ts) (h₂ : (t, g₂) ∈ walkAux c g ts) :
    g₁ = g₂ := by
  induction ts generalizing c g with
  | nil => cases h₁
  | cons u ts ih =>
    have hsort := List.sorted_cons.mp hs
    have hcu : c ≤ u := hc u (List.mem_cons_self _ _)
    have hrest : ∀ x ∈ ts, u ≤ x := hsort.1
    have hcrest : ∀ x ∈ ts, c ≤ x := fun x hx => hc x (List.mem_cons_of_mem _ hx)
    unfold walkAux at h₁ h₂
    by_cases hu : |u - c| > 1/2
    · rw [if_pos hu] at h₁ h₂
      rcases List.mem_cons.mp h₁ with he₁ | hm₁ <;> rcases List.mem_cons.mp h₂ with he₂ | hm₂
      · have hg₁ : g₁ = g + 1 := congrArg Prod.snd he₁
        have hg₂ : g₂ = g + 1 := congrArg Prod.snd he₂
        rw [hg₁, hg₂]
      · have ht : t = u := congrArg Prod.fst he₁
        have hg₁ : g₁ = g + 1 := congrArg Prod.snd he₁
        rw [hg₁]
        subst ht
        exact (walkAux_group_of_near t (g + 1) ts hsort.2 hrest t (by simp) g₂ hm₂).symm
      · have ht : t = u := congrArg Prod.fst he₂
        have hg₂ : g₂ = g + 1 := congrArg Prod.snd he₂
        rw [hg₂]
        subst ht
        exact walkAux_group_of_near t (g + 1) ts hsort.2 hrest t (by simp) g₁ hm₁
      · exact ih u (g + 1) hsort.2 hrest hm₁ hm₂
    · rw [if_neg hu] at h₁ h₂
      rcases List.mem_cons.mp h₁ with he₁ | hm₁ <;> rcases List.mem_cons.mp h₂ with he₂ | hm₂
      · have hg₁ : g₁ = g := congrArg Prod.snd he₁
        have hg₂ : g₂ = g := congrArg Prod.snd he₂
        rw [hg₁, hg₂]
      · have ht : t = u := congrArg Prod.fst he₁
        have hg₁ : g₁ = g := congrArg Prod.snd he₁
        rw [hg₁]
        subst ht
        exact (walkAux_group_of_near c g ts hsort.2 hcrest t hu g₂ hm₂).symm
      · have ht : t = u := congrArg Prod.fst he₂
        have hg₂ : g₂ = g := congrArg Prod.snd he₂
        rw [hg₂]
        subst ht
        exact walkAux_group_of_near c g ts hsort.2 hcrest t hu g₁ hm₁
      · exact ih c g hsort.2 hcrest hm₁ hm₂

/-- Equal tops receive equal row groups along the walk over sorted tops. -/
theorem walkPairs_group_unique (ts : List Rat) (hs : ts.Sorted (fun a b : Rat => a ≤ b))
    (t : Rat) (g₁ g₂ : Nat) (h₁ : (t, g₁) ∈ walkPairs ts) (h₂ : (t, g₂) ∈ walkPairs ts) :
    g₁ = g₂ := by
  cases ts with
  | nil => cases h₁
  | cons u ts =>
    refine walkAux_group_unique u 0 (u :: ts) hs ?_ t g₁ g₂ h₁ h₂
    intro x hx
    rcases List.mem_cons.mp hx with rfl | hx
    · exact le_refl x
    · exact (List.sorted_cons.mp hs).1 x hx

/-! Claim C3. -/

/-- Claim C3: the normalizer walks the placeholders in ascending-top order,
starting `row_group` at 0 and `current_top` at the first top, incrementing
and resetting exactly when the gap exceeds 0.5 (this is `walkAux`, the
definition of the embedding); empty input is returned unchanged; and the
spec scenario tops 0.1, 0.15, 3.0, 3.05, 6.2 receive groups 0, 0, 1, 1, 2. -/
theorem C3_row_grouping :
    _assign_row_groups [] = [] ∧
      (_assign_row_groups scenarioPlaceholders).map Placeholder.row_group = [0, 0, 1, 1, 2] := by
  refine ⟨rfl, ?_⟩
  norm_num [_assign_row_groups, scenarioPlaceholders, scenarioPh, rowGroupForTop, sortedTops,
    walkPairs, walkAux, lookupGroup, List.insertionSort, List.orderedInsert, lt_abs]

/-! Claim C9. -/

/-- Claim C9 counterexample: the placeholders "a" and "b" share `(top, left)`;
the final sort is stable, so the tie is broken by input order and the two
input permutations of the same set produce different final outputs. -/
theorem C9_counterexample :
    [tieA, tieB].Perm [tieB, tieA] ∧
      normalizePlaceholders [tieA, tieB] ≠ normalizePlaceholders [tieB, tieA] := by
  constructor
  · exact List.Perm.swap tieB tieA []
  · have h1 : normalizePlaceholders [tieA, tieB] = [tieA, tieB] := by
      norm_num [normalizePlaceholders, _assign_row_groups, rowGroupForTop, sortedTops, walkPairs,
        walkAux, lookupGroup, List.insertionSort, List.orderedInsert, tieA, tieB, phLe, lt_abs]
    have h2 : normalizePlaceholders [tieB, tieA] = [tieB, tieA] := by
      norm_num [normalizePlaceholders, _assign_row_groups, rowGroupForTop, sortedTops, walkPairs,
        walkAux, lookupGroup, List.insertionSort, List.orderedInsert, tieA, tieB, phLe, lt_abs]
    rw [h1, h2]
    intro hcon
    exact absurd hcon (by decide)

theorem sorted_phLt_of {l : List Placeholder} (h1 : l.Sorted phLe) (h2 : l.Pairwise keyNe) :
    l.Sorted phLt := by
  have h3 := List.Pairwise.and h1 h2
  refine h3.imp ?_
  intro a b hab
  obtain ⟨hle, hne⟩ := hab
  rcases hle with h | ⟨he, hl⟩
  · exact Or.inl h
  · refine Or.inr ⟨he, lt_of_le_of_ne hl ?_⟩
    intro hll
    exact hne (by rw [he, hll])

/-- Claim C9 (amended): the normalizer is order-independent up to final-sort
ties — on any permutation of a placeholder set the row-grouped output is a
permutation of the original output (each placeholder value receives the
same group), and the final `(row_group, left)`-sorted orders are identical
whenever no two placeholders share the same `(row_group, left)` key. -/
theorem C9_order_independence (phs phs' : List Placeholder) (hp : phs'.Perm phs) :
    (_assign_row_groups phs').Perm (_assign_row_groups phs) ∧
      ((normalizePlaceholders phs).Pairwise keyNe →
        normalizePlaceholders phs' = normalizePlaceholders phs) := by
  have hst : sortedTops phs' = sortedTops phs :=
    List.eq_of_perm_of_sorted
      ((List.perm_insertionSort _ _).trans ((hp.map _).trans
        (List.perm_insertionSort _ _).symm))
      (List.sorted_insertionSort _ _) (List.sorted_insertionSort _ _)
  have hassign : (_assign_row_groups phs').Perm (_assign_row_groups phs) := by
    unfold _assign_row_groups
    rw [hst]
    by_cases he : phs = []
    · subst he
      rw [List.Perm.eq_nil hp]
    · have hb : phs.isEmpty = false := by
        cases phs with
        | nil => exact absurd rfl he
        | cons a l => rfl
      have hb' : phs'.isEmpty = false := by
        cases hx : phs' with
        | nil =>
          rw [hx] at hp
          exact absurd hp.symm.eq_nil he
        | cons a l => rfl
      rw [hb, hb']
      simp only [Bool.false_eq_true, if_false]
      exact hp.map _
  refine ⟨hassign, ?_⟩
  intro hpw
  have hperm : (normalizePlaceholders phs').Perm (normalizePlaceholders phs) :=
    (List.perm_insertionSort _ _).trans (hassign.trans (List.perm_insertionSort _ _).symm)
  have hsymm : Symmetric keyNe := fun a b h hcon => h hcon.symm
  have hpw' : (normalizePlaceholders phs').Pairwise keyNe :=
    (List.Perm.pairwise_iff (fun {x y} h => hsymm h) hperm).mpr hpw
  exact List.eq_of_perm_of_sorted hperm
    (sorted_phLt_of (List.sorted_insertionSort _ _) hpw')
    (sorted_phLt_of (List.sorted_insertionSort _ _) hpw)

/-- Claim C9 (amended) witness: the two-placeholder set with distinct
`(row_group, left)` keys, in both input orders. -/
theorem C9_witness :
    (_assign_row_groups [rowC, tieA]).Perm (_assign_row_groups [tieA, rowC]) ∧
      normalizePlaceholders [rowC, tieA] = normalizePlaceholders [tieA, rowC] :=
  ⟨(C9_order_independence [tieA, rowC] [rowC, tieA] (List.Perm.swap tieA rowC [])).1,
    (C9_order_independence [tieA, rowC] [rowC, tieA] (List.Perm.swap tieA rowC [])).2
      (by
        have hn : normalizePlaceholders [tieA, rowC] =
            [tieA, { rowC with row_group := 1 }] := by
          norm_num [normalizePlaceholders, _assign_row_groups, rowGroupForTop, sortedTops,
            walkPairs, walkAux, lookupGroup, List.insertionSort, List.orderedInsert, tieA,
            rowC, phLe, lt_abs]
        rw [hn]
        decide)⟩

/-! Claim C10. -/

theorem find_cache (d : DSDDocument) :
    ((find_architecture_slides d).2)._architecture_slides =
      some (find_architecture_slides d).1 := by
  cases h : d._architecture_slides with
  | some s => simp [find_architecture_slides, h]
  | none => simp [find_architecture_slides, h]

theorem find_of_cache {d : DSDDocument} {s : List ArchitectureSlide}
    (h : d._architecture_slides = some s) : find_architecture_slides d = (s, d) := by
  simp [find_architecture_slides, h]

theorem update_preserves_cache (d : DSDDocument) (i : Nat) (nm : String) (t : Option String) :
    ((update_placeholder d i nm t).2)._architecture_slides = d._architecture_slides := by
  unfold update_placeholder
  by_cases h : i < d.slides.length
  · rw [if_pos h]
    cases updateInShapes nm t (d.slides.getD i ⟨[]⟩).shapes <;> rfl
  · rw [if_neg h]

/-- Claim C10: `find_architecture_slides` memoizes its result — a second
call returns the list computed by the first call and leaves the document
unchanged, and it still returns that same (stale) list after
`update_placeholder` has modified shape texts in between, because the
update never touches the `_architecture_slides` cache. -/
theorem C10_memoization (d : DSDDocument) (i : Nat) (nm : String) (t : Option String) :
    find_architecture_slides ((find_architecture_slides d).2) =
        ((find_architecture_slides d).1, (find_architecture_slides d).2) ∧
      find_architecture_slides ((update_placeholder (find_architecture_slides d).2 i nm t).2) =
        ((find_architecture_slides d).1,
          (update_placeholder (find_architecture_slides d).2 i nm t).2) := by
  constructor
  · exact find_of_cache (find_cache d)
  · apply find_of_cache
    rw [update_preserves_cache]
    exact find_cache d

/-! Claim C8. -/

theorem dictInsert_keys (l : List ((Nat × String) × Option String)) (k : Nat × String)
    (v : Option String) :
    (dictInsert l k v).map Prod.fst =
      if k ∈ l.map Prod.fst then l.map Prod.fst else l.map Prod.fst ++ [k] := by
  induction l with
  | nil => simp [dictInsert]
  | cons kv l ih =>
    unfold dictInsert
    by_cases h : kv.1 = k
    · rw [if_pos h]
      simp [h]
    · rw [if_neg h]
      simp only [List.map_cons, ih]
      by_cases hm : k ∈ l.map Prod.fst
      · rw [if_pos hm, if_pos (List.mem_cons_of_mem _ hm)]
      · have hk2 : ¬ k = kv.1 := fun hh => h hh.symm
        rw [if_neg hm, if_neg (by simp [List.mem_cons, hk2, hm])]
        simp

theorem buildUpdates_keys_aux (si : Nat) (ms : List (Placeholder × SystemComponent))
    (acc : List ((Nat × String) × Option String)) :
    (ms.foldl (fun a pr => dictInsert a (si, pr.1.shape_name) pr.2.name) acc).map Prod.fst =
      ms.foldl
        (fun a pr => if (si, pr.1.shape_name) ∈ a then a else a ++ [(si, pr.1.shape_name)])
        (acc.map Prod.fst) := by
  induction ms generalizing acc with
  | nil => rfl
  | cons pr ms ih =>
    rw [List.foldl_cons, List.foldl_cons, ih, dictInsert_keys]

theorem buildUpdates_keys (mr : MappingResult) :
    (buildUpdates mr).map Prod.fst =
      pyDedup (mr.mappings.map (fun pr => (mr.slide_index, pr.1.shape_name))) := by
  rw [buildUpdates, buildUpdates_keys_aux, pyDedup, List.foldl_map]
  rfl

theorem update_placeholder_false {d : DSDDocument} {i : Nat} {nm : String}
    {t : Option String} {d' : DSDDocument}
    (h : update_placeholder d i nm t = (some false, d')) : d' = d := by
  unfold update_placeholder at h
  by_cases hlen : i < d.slides.length
  · rw [if_pos hlen] at h
    cases hres : updateInShapes nm t (d.slides.getD i ⟨[]⟩).shapes with
    | notFound =>
      rw [hres] at h
      cases h
      rfl
    | indexError =>
      rw [hres] at h
      simp at h
    | updated shs =>
      rw [hres] at h
      simp at h
  · rw [if_neg hlen] at h
    cases h
    rfl

theorem batch_cons (d : DSDDocument) (i : Nat) (nm : String) (t : Option String)
    (rest : List ((Nat × String) × Option String)) :
    update_placeholders_batch d (((i, nm), t) :: rest) =
      match update_placeholder d i nm t with
      | (none, d') => (none, d')
      | (some b, d') =>
        match update_placeholders_batch d' rest with
        | (none, d'') => (none, d'')
        | (some m, d'') => (some ((if b then 1 else 0) + m), d'') := rfl

/-- Claim C8 counterexample: the mappings list from the duplicate-"ph1" raw
input holds two pairs, each of which the store would write successfully,
yet the applier performs a single write (the dict build collapses equal
`(slide_index, shape_name)` keys) and returns 1, not 2. -/
theorem C8_counterexample :
    (reconcile slideOne [compA, compB] [entry1A, entry1B]).mappings.length = 2 ∧
      (buildUpdates (reconcile slideOne [compA, compB] [entry1A, entry1B])).length = 1 ∧
      (apply_mapping docOne (reconcile slideOne [compA, compB] [entry1A, entry1B])).1 =
        some 1 ∧
      update_placeholder docOne 0 "ph1" (some "A") = (some true, docOneWith (some "A")) ∧
      update_placeholder docOne 0 "ph1" (some "B") = (some true, docOneWith (some "B")) := by
  decide

/-- Claim C8 (amended): the applier invokes the store once per DISTINCT
`(slide index, placeholder identifier)` key among the mapped pairs — the
updates dict keys are the first-occurrence deduplication of the pair keys —
and a write that reports failure leaves the document unchanged and does not
prevent the remaining writes: the batch over the remaining updates proceeds
identically. -/
theorem C8_batch_semantics :
    (∀ mr : MappingResult,
        (buildUpdates mr).map Prod.fst =
          pyDedup (mr.mappings.map (fun pr => (mr.slide_index, pr.1.shape_name)))) ∧
    (∀ (d : DSDDocument) (i : Nat) (nm : String) (t : Option String) (d' : DSDDocument)
        (rest : List ((Nat × String) × Option String)),
        update_placeholder d i nm t = (some false, d') →
        d' = d ∧ update_placeholders_batch d (((i, nm), t) :: rest) =
          update_placeholders_batch d rest) := by
  constructor
  · exact buildUpdates_keys
  · intro d i nm t d' rest h
    have hd := update_placeholder_false h
    refine ⟨hd, ?_⟩
    subst hd
    rw [batch_cons, h]
    show (match update_placeholders_batch d' rest with
        | (none, d'') => ((none : Option Nat), d'')
        | (some m, d'') => (some ((if false then 1 else 0) + m), d'')) =
      update_placeholders_batch d' rest
    cases hb : update_placeholders_batch d' rest with
    | mk o dd =>
      cases o with
      | none => rfl
      | some m => simp

/-- Claim C8 (amended) witness: the dict-key characterization at `mrOne`,
and a failing write (unknown shape "nope") that leaves the document intact
while the rest of the batch proceeds. -/
theorem C8_witness :
    ((buildUpdates mrOne).map Prod.fst =
        pyDedup (mrOne.mappings.map (fun pr => (mrOne.slide_index, pr.1.shape_name)))) ∧
      (docOne = docOne ∧
        update_placeholders_batch docOne (((0, "nope"), some "X") :: [((0, "ph1"), some "A")]) =
          update_placeholders_batch docOne [((0, "ph1"), some "A")]) :=
  ⟨C8_batch_semantics.1 mrOne,
    C8_batch_semantics.2 docOne 0 "nope" (some "X") docOne [((0, "ph1"), some "A")] (by decide)⟩

/-! Claim C5: idempotence of mapping application.  Shape-level lemmas. -/

theorem consRes_notFound (sh : Shape) : consRes sh .notFound = .notFound := rfl

theorem consRes_indexError (sh : Shape) : consRes sh .indexError = .indexError := rfl

theorem consRes_updated (sh : Shape) (shs : List Shape) :
    consRes sh (.updated shs) = .updated (sh :: shs) := rfl

theorem consRes_eq_updated {sh : Shape} {r : UpdRes} {shs : List Shape}
    (h : consRes sh r = .updated shs) :
    ∃ shs', r = .updated shs' ∧ shs = sh :: shs' := by
  cases r with
  | notFound => cases h
  | indexError => cases h
  | updated s2 =>
    rw [consRes_updated] at h
    cases h
    exact ⟨s2, rfl, rfl⟩

theorem consRes_eq_notFound {sh : Shape} {r : UpdRes}
    (h : consRes sh r = .notFound) : r = .notFound := by
  cases r with
  | notFound => rfl
  | indexError => cases h
  | updated s2 => rw [consRes_updated] at h; cases h

theorem setFirstRun_again {ps ps' : List (List (Option String))} {t : Option String}
    (h : setFirstRun ps t = some ps') : setFirstRun ps' t = some ps' := by
  induction ps generalizing ps' with
  | nil => cases h
  | cons p rest ih =>
    cases p with
    | nil =>
      unfold setFirstRun at h
      cases hr : setFirstRun rest t with
      | none =>
        rw [hr] at h
        cases h
      | some r =>
        rw [hr] at h
        have h' : some ([] :: r) = some ps' := h
        cases h'
        unfold setFirstRun
        rw [ih hr]
        rfl
    | cons r₀ rs =>
      unfold setFirstRun at h
      cases h
      rfl

theorem updateInShapes_again {nm : String} {t : Option String} {shs shs' : List Shape}
    (h : updateInShapes nm t shs = .updated shs') :
    updateInShapes nm t shs' = .updated shs' := by
  induction shs generalizing shs' with
  | nil => cases h
  | cons sh rest ih =>
    unfold updateInShapes at h
    by_cases hm : sh.name = nm ∧ sh.has_text_frame = true
    · rw [if_pos hm] at h
      cases hsf : setFirstRun sh.paragraphs t with
      | some ps =>
        rw [hsf] at h
        cases h
        unfold updateInShapes
        rw [if_pos hm, setFirstRun_again hsf]
      | none =>
        rw [hsf] at h
        by_cases hemp : sh.paragraphs.isEmpty
        · rw [if_pos hemp] at h
          obtain ⟨rest', hr, hcons⟩ := consRes_eq_updated h
          subst hcons
          unfold updateInShapes
          rw [if_pos hm, hsf, if_pos hemp, ih hr]
          rfl
        · rw [if_neg hemp] at h
          cases h
    · rw [if_neg hm] at h
      obtain ⟨rest', hr, hcons⟩ := consRes_eq_updated h
      subst hcons
      unfold updateInShapes
      rw [if_neg hm, ih hr]
      rfl

theorem setFirstRun_none_iff {ps : List (List (Option String))} {t t' : Option String} :
    setFirstRun ps t = none ↔ setFirstRun ps t' = none := by
  induction ps with
  | nil => simp [setFirstRun]
  | cons p rest ih =>
    cases p with
    | nil =>
      show (setFirstRun rest t).map (fun r => [] :: r) = none ↔
        (setFirstRun rest t').map (fun r => [] :: r) = none
      cases hr : setFirstRun rest t with
      | none =>
        cases hr' : setFirstRun rest t' with
        | none => simp
        | some r' =>
          have hc := ih.mp hr
          rw [hr'] at hc
          cases hc
      | some r =>
        cases hr' : setFirstRun rest t' with
        | none =>
          have hc := ih.mpr hr'
          rw [hr] at hc
          cases hc
        | some r' => simp
    | cons r₀ rs => simp [setFirstRun]

theorem updateInShapes_frame_settled {nm nm' : String} {t t' : Option String}
    {shs shs₂ : List Shape} (hne : nm ≠ nm')
    (hset : updateInShapes nm t shs = .updated shs)
    (hupd : updateInShapes nm' t' shs = .updated shs₂) :
    updateInShapes nm t shs₂ = .updated shs₂ := by
  induction shs generalizing shs₂ with
  | nil => cases hset
  | cons sh rest ih =>
    by_cases hA : sh.name = nm ∧ sh.has_text_frame = true
    · have hB : ¬ (sh.name = nm' ∧ sh.has_text_frame = true) := by
        rintro ⟨hb, _⟩
        exact hne (hA.1.symm.trans hb)
      unfold updateInShapes at hupd
      rw [if_neg hB] at hupd
      obtain ⟨rest₂, hr₂, hcons₂⟩ := consRes_eq_updated hupd
      subst hcons₂
      unfold updateInShapes at hset
      rw [if_pos hA] at hset
      cases hsf : setFirstRun sh.paragraphs t with
      | some ps =>
        rw [hsf] at hset
        injection hset with h1
        injection h1 with hhead htail
        have hps : ps = sh.paragraphs := congrArg Shape.paragraphs hhead
        unfold updateInShapes
        rw [if_pos hA, show setFirstRun sh.paragraphs t = some sh.paragraphs from hps ▸ hsf]
      | none =>
        rw [hsf] at hset
        by_cases hemp : sh.paragraphs.isEmpty
        · rw [if_pos hemp] at hset
          obtain ⟨rest', hr', hcons'⟩ := consRes_eq_updated hset
          injection hcons' with h1 h2
          have hsetr : updateInShapes nm t rest = .updated rest := by
            rw [hr', ← h2]
          have hres := ih hsetr hr₂
          unfold updateInShapes
          rw [if_pos hA, hsf, if_pos hemp, hres]
          rfl
        · rw [if_neg hemp] at hset
          cases hset
    · unfold updateInShapes at hset
      rw [if_neg hA] at hset
      obtain ⟨rest', hr', hcons'⟩ := consRes_eq_updated hset
      injection hcons' with h1 h2
      have hsetr : updateInShapes nm t rest = .updated rest := by
        rw [hr', ← h2]
      unfold updateInShapes at hupd
      by_cases hB : sh.name = nm' ∧ sh.has_text_frame = true
      · rw [if_pos hB] at hupd
        cases hsf' : setFirstRun sh.paragraphs t' with
        | some ps' =>
          rw [hsf'] at hupd
          cases hupd
          unfold updateInShapes
          have hA' : ¬ (({ sh with paragraphs := ps' }).name = nm ∧
              ({ sh with paragraphs := ps' }).has_text_frame = true) := hA
          rw [if_neg hA', hsetr]
          rfl
        | none =>
          rw [hsf'] at hupd
          by_cases hemp : sh.paragraphs.isEmpty
          · rw [if_pos hemp] at hupd
            obtain ⟨rest₂, hr₂, hcons₂⟩ := consRes_eq_updated hupd
            subst hcons₂
            have hres := ih hsetr hr₂
            unfold updateInShapes
            rw [if_neg hA, hres]
            rfl
          · rw [if_neg hemp] at hupd
            cases hupd
      · rw [if_neg hB] at hupd
        obtain ⟨rest₂, hr₂, hcons₂⟩ := consRes_eq_updated hupd
        subst hcons₂
        have hres := ih hsetr hr₂
        unfold updateInShapes
        rw [if_neg hA, hres]
        rfl

theorem updateInShapes_frame_notFound {nm nm' : String} {t t' : Option String}
    {shs shs₂ : List Shape}
    (hnf : updateInShapes nm t shs = .notFound)
    (hupd : updateInShapes nm' t' shs = .updated shs₂) :
    updateInShapes nm t shs₂ = .notFound := by
  induction shs generalizing shs₂ with
  | nil => cases hupd
  | cons sh rest ih =>
    unfold updateInShapes at hnf hupd
    by_cases hA : sh.name = nm ∧ sh.has_text_frame = true
    · rw [if_pos hA] at hnf
      cases hsf : setFirstRun sh.paragraphs t with
      | some ps =>
        rw [hsf] at hnf
        cases hnf
      | none =>
        rw [hsf] at hnf
        by_cases hemp : sh.paragraphs.isEmpty
        · rw [if_pos hemp] at hnf
          have hrest := consRes_eq_notFound hnf
          by_cases hB : sh.name = nm' ∧ sh.has_text_frame = true
          · rw [if_pos hB] at hupd
            cases hsf' : setFirstRun sh.paragraphs t' with
            | some ps' =>
              exfalso
              have hnone : setFirstRun sh.paragraphs t' = none := setFirstRun_none_iff.mp hsf
              rw [hnone] at hsf'
              cases hsf'
            | none =>
              rw [hsf', if_pos hemp] at hupd
              obtain ⟨rest₂, hr₂, hcons₂⟩ := consRes_eq_updated hupd
              subst hcons₂
              unfold updateInShapes
              rw [if_pos hA, hsf, if_pos hemp, ih hrest hr₂]
              rfl
          · rw [if_neg hB] at hupd
            obtain ⟨rest₂, hr₂, hcons₂⟩ := consRes_eq_updated hupd
            subst hcons₂
            unfold updateInShapes
            rw [if_pos hA, hsf, if_pos hemp, ih hrest hr₂]
            rfl
        · rw [if_neg hemp] at hnf
          cases hnf
    · rw [if_neg hA] at hnf
      have hrest := consRes_eq_notFound hnf
      by_cases hB : sh.name = nm' ∧ sh.has_text_frame = true
      · rw [if_pos hB] at hupd
        cases hsf' : setFirstRun sh.paragraphs t' with
        | some ps' =>
          rw [hsf'] at hupd
          cases hupd
          unfold updateInShapes
          have hA' : ¬ (({ sh with paragraphs := ps' }).name = nm ∧
              ({ sh with paragraphs := ps' }).has_text_frame = true) := hA
          rw [if_neg hA', hrest]
          rfl
        | none =>
          rw [hsf'] at hupd
          by_cases hemp : sh.paragraphs.isEmpty
          · rw [if_pos hemp] at hupd
            obtain ⟨rest₂, hr₂, hcons₂⟩ := consRes_eq_updated hupd
            subst hcons₂
            unfold updateInShapes
            rw [if_neg hA, ih hrest hr₂]
            rfl
          · rw [if_neg hemp] at hupd
            cases hupd
      · rw [if_neg hB] at hupd
        obtain ⟨rest₂, hr₂, hcons₂⟩ := consRes_eq_updated hupd
        subst hcons₂
        unfold updateInShapes
        rw [if_neg hA, ih hrest hr₂]
        rfl

theorem update_placeholder_notFound {d : DSDDocument} {i : Nat} {nm : String}
    {t : Option String} (hlen : i < d.slides.length)
    (hres : updateInShapes nm t (d.slides.getD i ⟨[]⟩).shapes = .notFound) :
    update_placeholder d i nm t = (some false, d) := by
  unfold update_placeholder
  rw [if_pos hlen, hres]

theorem update_placeholder_updated {d : DSDDocument} {i : Nat} {nm : String}
    {t : Option String} {shs : List Shape} (hlen : i < d.slides.length)
    (hres : updateInShapes nm t (d.slides.getD i ⟨[]⟩).shapes = .updated shs) :
    update_placeholder d i nm t = (some true, { d with slides := d.slides.set i ⟨shs⟩ }) := by
  unfold update_placeholder
  rw [if_pos hlen, hres]

theorem update_placeholder_neg {d : DSDDocument} {i : Nat} {nm : String}
    {t : Option String} (hlen : ¬ i < d.slides.length) :
    update_placeholder d i nm t = (some false, d) := by
  unfold update_placeholder
  rw [if_neg hlen]

theorem list_getD_set_self (l : List Slide) (i : Nat) (x : Slide) (h : i < l.length) :
    (l.set i x).getD i ⟨[]⟩ = x := by
  induction l generalizing i with
  | nil => cases h
  | cons a l ih =>
    cases i with
    | zero => rfl
    | succ n => exact ih n (Nat.lt_of_succ_lt_succ h)

theorem list_getD_set_ne (l : List Slide) (i j : Nat) (x : Slide) (hne : i ≠ j) :
    (l.set j x).getD i ⟨[]⟩ = l.getD i ⟨[]⟩ := by
  induction l generalizing i j with
  | nil => rfl
  | cons a l ih =>
    cases j with
    | zero =>
      cases i with
      | zero => exact absurd rfl hne
      | succ n => rfl
    | succ m =>
      cases i with
      | zero => rfl
      | succ n => exact ih n m (fun h => hne (congrArg Nat.succ h))

theorem update_placeholder_again {d d₁ : DSDDocument} {i : Nat} {nm : String}
    {t : Option String} {b : Bool}
    (h : update_placeholder d i nm t = (some b, d₁)) :
    update_placeholder d₁ i nm t = (some b, d₁) := by
  by_cases hlen : i < d.slides.length
  · unfold update_placeholder at h
    rw [if_pos hlen] at h
    cases hres : updateInShapes nm t (d.slides.getD i ⟨[]⟩).shapes with
    | notFound =>
      rw [hres] at h
      injection h with h1 h2
      rw [← h2, ← h1]
      exact update_placeholder_notFound hlen hres
    | indexError =>
      rw [hres] at h
      injection h with h1 h2
      exact Option.noConfusion h1
    | updated shs =>
      rw [hres] at h
      injection h with h1 h2
      have hd₁s : d₁.slides = d.slides.set i ⟨shs⟩ := by rw [← h2]
      have hlen₁ : i < d₁.slides.length := by
        rw [hd₁s, List.length_set]
        exact hlen
      have hres₁ : updateInShapes nm t (d₁.slides.getD i ⟨[]⟩).shapes = UpdRes.updated shs := by
        rw [hd₁s, list_getD_set_self d.slides i ⟨shs⟩ hlen]
        exact updateInShapes_again hres
      rw [update_placeholder_updated hlen₁ hres₁, ← h1]
      have hss : d₁.slides.set i (⟨shs⟩ : Slide) = d₁.slides := by
        rw [hd₁s, List.set_set]
      have hrec : ({ d₁ with slides := d₁.slides.set i (⟨shs⟩ : Slide) } : DSDDocument) = d₁ := by
        rw [hss]
      rw [hrec]
  · unfold update_placeholder at h
    rw [if_neg hlen] at h
    injection h with h1 h2
    rw [← h2, ← h1]
    exact update_placeholder_neg hlen

theorem update_placeholder_frame {d d₂ : DSDDocument} {i i' : Nat} {nm nm' : String}
    {t t' : Option String} {b b' : Bool}
    (hkey : ¬ (i = i' ∧ nm = nm'))
    (hs : update_placeholder d i nm t = (some b, d))
    (hu : update_placeholder d i' nm' t' = (some b', d₂)) :
    update_placeholder d₂ i nm t = (some b, d₂) := by
  cases b' with
  | false =>
    have hd : d₂ = d := update_placeholder_false hu
    rw [hd]
    exact hs
  | true =>
    unfold update_placeholder at hu
    by_cases hlen' : i' < d.slides.length
    · rw [if_pos hlen'] at hu
      cases hres' : updateInShapes nm' t' (d.slides.getD i' ⟨[]⟩).shapes with
      | notFound =>
        rw [hres'] at hu
        injection hu with h1 h2
        injection h1 with hb
        exact absurd hb (by decide)
      | indexError =>
        rw [hres'] at hu
        injection hu with h1 h2
        exact Option.noConfusion h1
      | updated shs' =>
        rw [hres'] at hu
        injection hu with h1 h2
        have hd₂s : d₂.slides = d.slides.set i' ⟨shs'⟩ := by rw [← h2]
        by_cases hii : i = i'
        · subst hii
          have hnm : nm ≠ nm' := fun hh => hkey ⟨rfl, hh⟩
          unfold update_placeholder at hs
          rw [if_pos hlen'] at hs
          have hlen₂ : i < d₂.slides.length := by
            rw [hd₂s, List.length_set]
            exact hlen'
          have hgd₂ : d₂.slides.getD i ⟨[]⟩ = (⟨shs'⟩ : Slide) := by
            rw [hd₂s]
            exact list_getD_set_self d.slides i ⟨shs'⟩ hlen'
          cases hres : updateInShapes nm t (d.slides.getD i ⟨[]⟩).shapes with
          | indexError =>
            rw [hres] at hs
            injection hs with h1 h2s
            exact Option.noConfusion h1
          | notFound =>
            rw [hres] at hs
            injection hs with h1 h2s
            have hframe := updateInShapes_frame_notFound hres hres'
            have hres₂ : updateInShapes nm t (d₂.slides.getD i ⟨[]⟩).shapes = UpdRes.notFound := by
              rw [hgd₂]
              exact hframe
            rw [update_placeholder_notFound hlen₂ hres₂, ← h1]
          | updated shs =>
            rw [hres] at hs
            injection hs with h1 h2s
            have hsl : d.slides.set i ⟨shs⟩ = d.slides := congrArg DSDDocument.slides h2s
            have hgd0 : d.slides.getD i ⟨[]⟩ = (⟨shs⟩ : Slide) := by
              rw [← hsl]
              exact list_getD_set_self d.slides i ⟨shs⟩ hlen'
            have hshapes : (d.slides.getD i ⟨[]⟩).shapes = shs := by rw [hgd0]
            have hset : updateInShapes nm t shs = UpdRes.updated shs := hshapes ▸ hres
            have hupd : updateInShapes nm' t' shs = UpdRes.updated shs' := hshapes ▸ hres'
            have hframe := updateInShapes_frame_settled hnm hset hupd
            have hres₂ : updateInShapes nm t (d₂.slides.getD i ⟨[]⟩).shapes =
                UpdRes.updated shs' := by
              rw [hgd₂]
              exact hframe
            rw [update_placeholder_updated hlen₂ hres₂, ← h1]
            have hss : d₂.slides.set i (⟨shs'⟩ : Slide) = d₂.slides := by
              rw [hd₂s, List.set_set]
            have hrec : ({ d₂ with slides := d₂.slides.set i (⟨shs'⟩ : Slide) } : DSDDocument) =
                d₂ := by
              rw [hss]
            rw [hrec]
        · have hgd₂ : d₂.slides.getD i ⟨[]⟩ = d.slides.getD i ⟨[]⟩ := by
            rw [hd₂s]
            exact list_getD_set_ne d.slides i i' ⟨shs'⟩ hii
          by_cases hlen : i < d.slides.length
          · unfold update_placeholder at hs
            rw [if_pos hlen] at hs
            have hlen₂ : i < d₂.slides.length := by
              rw [hd₂s, List.length_set]
              exact hlen
            cases hres : updateInShapes nm t (d.slides.getD i ⟨[]⟩).shapes with
            | indexError =>
              rw [hres] at hs
              injection hs with h1 h2s
              exact Option.noConfusion h1
            | notFound =>
              rw [hres] at hs
              injection hs with h1 h2s
              have hres₂ : updateInShapes nm t (d₂.slides.getD i ⟨[]⟩).shapes =
                  UpdRes.notFound := by
                rw [hgd₂]
                exact hres
              rw [update_placeholder_notFound hlen₂ hres₂, ← h1]
            | updated shs =>
              rw [hres] at hs
              injection hs with h1 h2s
              have hsl : d.slides.set i ⟨shs⟩ = d.slides := congrArg DSDDocument.slides h2s
              have hres₂ : updateInShapes nm t (d₂.slides.getD i ⟨[]⟩).shapes =
                  UpdRes.updated shs := by
                rw [hgd₂]
                exact hres
              rw [update_placeholder_updated hlen₂ hres₂, ← h1]
              have hss : d₂.slides.set i (⟨shs⟩ : Slide) = d₂.slides := by
                rw [hd₂s, List.set_comm (⟨shs'⟩ : Slide) (⟨shs⟩ : Slide) d.slides
                  (fun hh => hii hh.symm), hsl]
              have hrec : ({ d₂ with slides := d₂.slides.set i (⟨shs⟩ : Slide) } : DSDDocument) =
                  d₂ := by
                rw [hss]
              rw [hrec]
          · unfold update_placeholder at hs
            rw [if_neg hlen] at hs
            injection hs with h1 h2s
            have hlen₂ : ¬ i < d₂.slides.length := by
              rw [hd₂s, List.length_set]
              exact hlen
            rw [update_placeholder_neg hlen₂, ← h1]
    · rw [if_neg hlen'] at hu
      injection hu with h1 h2
      injection h1 with hb
      exact absurd hb (by decide)

theorem batch_cons_inv {d d₁ : DSDDocument} {i : Nat} {nm : String} {t : Option String}
    {rest : List ((Nat × String) × Option String)} {n : Nat}
    (h : update_placeholders_batch d (((i, nm), t) :: rest) = (some n, d₁)) :
    ∃ b d' m, update_placeholder d i nm t = (some b, d') ∧
      update_placeholders_batch d' rest = (some m, d₁) ∧ n = (if b then 1 else 0) + m := by
  rw [batch_cons] at h
  cases hup : update_placeholder d i nm t with
  | mk ob d' =>
    rw [hup] at h
    cases ob with
    | none =>
      have h₁ : ((none : Option Nat), d') = (some n, d₁) := h
      injection h₁ with h1 h2
      exact Option.noConfusion h1
    | some b =>
      have h₁ : (match update_placeholders_batch d' rest with
          | (none, d'') => ((none : Option Nat), d'')
          | (some m, d'') => (some ((if b then 1 else 0) + m), d'')) = (some n, d₁) := h
      cases hrest : update_placeholders_batch d' rest with
      | mk or d'' =>
        rw [hrest] at h₁
        cases or with
        | none =>
          have h₂ : ((none : Option Nat), d'') = (some n, d₁) := h₁
          injection h₂ with h1 h2
          exact Option.noConfusion h1
        | some m =>
          have h₂ : ((some ((if b then 1 else 0) + m) : Option Nat), d'') = (some n, d₁) := h₁
          injection h₂ with h1 h2
          injection h1 with hn
          exact ⟨b, d', m, rfl, h2 ▸ hrest, hn.symm⟩

theorem batch_cons_step {d d' d₁ : DSDDocument} {i : Nat} {nm : String} {t : Option String}
    {b : Bool} {rest : List ((Nat × String) × Option String)} {m : Nat}
    (hup : update_placeholder d i nm t = (some b, d'))
    (hrest : update_placeholders_batch d' rest = (some m, d₁)) :
    update_placeholders_batch d (((i, nm), t) :: rest) = (some ((if b then 1 else 0) + m), d₁) := by
  rw [batch_cons, hup]
  show (match update_placeholders_batch d' rest with
      | (none, d'') => ((none : Option Nat), d'')
      | (some m', d'') => (some ((if b then 1 else 0) + m'), d'')) = _
  rw [hrest]

theorem update_settled_batch {i : Nat} {nm : String} {t : Option String} {b : Bool}
    {ups : List ((Nat × String) × Option String)} :
    ∀ {d d₁ : DSDDocument} {m : Nat},
    update_placeholder d i nm t = (some b, d) →
    (i, nm) ∉ ups.map Prod.fst →
    update_placeholders_batch d ups = (some m, d₁) →
    update_placeholder d₁ i nm t = (some b, d₁) := by
  induction ups with
  | nil =>
    intro d d₁ m hs hmem hb
    have hb' : ((some 0 : Option Nat), d) = (some m, d₁) := hb
    injection hb' with h1 h2
    rw [← h2]
    exact hs
  | cons u rest ih =>
    intro d d₁ m hs hmem hb
    obtain ⟨⟨i', nm'⟩, t'⟩ := u
    obtain ⟨b', d', m', hup, hrest, hm⟩ := batch_cons_inv hb
    rw [List.map_cons] at hmem
    have hne : (i, nm) ≠ (i', nm') := fun he => hmem (by rw [he]; exact List.mem_cons_self _ _)
    have hkey : ¬ (i = i' ∧ nm = nm') := by
      rintro ⟨ha, hb2⟩
      exact hne (by rw [ha, hb2])
    have hmemrest : (i, nm) ∉ rest.map Prod.fst := fun hmm => hmem (List.mem_cons_of_mem _ hmm)
    exact ih (update_placeholder_frame hkey hs hup) hmemrest hrest

theorem batch_idem {ups : List ((Nat × String) × Option String)} :
    ∀ {d d₁ : DSDDocument} {n : Nat},
    (ups.map Prod.fst).Nodup →
    update_placeholders_batch d ups = (some n, d₁) →
    update_placeholders_batch d₁ ups = (some n, d₁) := by
  induction ups with
  | nil =>
    intro d d₁ n _ hb
    have hb' : ((some 0 : Option Nat), d) = (some n, d₁) := hb
    injection hb' with h1 h2
    show ((some 0 : Option Nat), d₁) = (some n, d₁)
    rw [h1]
  | cons u rest ih =>
    intro d d₁ n hnd hb
    obtain ⟨⟨i, nm⟩, t⟩ := u
    obtain ⟨b, d', m, hup, hrest, hn⟩ := batch_cons_inv hb
    rw [List.map_cons] at hnd
    have hmem : (i, nm) ∉ rest.map Prod.fst := (List.nodup_cons.mp hnd).1
    have hndrest : (rest.map Prod.fst).Nodup := (List.nodup_cons.mp hnd).2
    have hs₁ : update_placeholder d₁ i nm t = (some b, d₁) :=
      update_settled_batch (update_placeholder_again hup) hmem hrest
    have hrest₁ : update_placeholders_batch d₁ rest = (some m, d₁) := ih hndrest hrest
    rw [hn]
    exact batch_cons_step hs₁ hrest₁

theorem pyDedup_aux_nodup {α : Type} [BEq α] [LawfulBEq α] (l : List α) :
    ∀ acc : List α, acc.Nodup →
      (l.foldl (fun acc k => if k ∈ acc then acc else acc ++ [k]) acc).Nodup := by
  induction l with
  | nil => intro acc h; exact h
  | cons x l ih =>
    intro acc hacc
    rw [List.foldl_cons]
    by_cases hx : x ∈ acc
    · rw [if_pos hx]
      exact ih acc hacc
    · rw [if_neg hx]
      refine ih _ (List.Nodup.append hacc (List.nodup_singleton x) ?_)
      intro a ha hb
      rw [List.mem_singleton] at hb
      subst hb
      exact hx ha

theorem buildUpdates_nodup (mr : MappingResult) : ((buildUpdates mr).map Prod.fst).Nodup := by
  rw [buildUpdates_keys]
  exact pyDedup_aux_nodup _ [] List.nodup_nil

/-- Claim C5: `apply_mapping` is idempotent — if applying a mapping result
to a document succeeds (returns a count without raising `IndexError`) and
yields document state `d₁`, applying the same mapping result to `d₁` again
returns the same count and leaves the document in the same state `d₁`, so
every shape's text equals what a single application produced. -/
theorem C5_apply_idempotent {d d₁ : DSDDocument} {mr : MappingResult} {n : Nat}
    (h : apply_mapping d mr = (some n, d₁)) : apply_mapping d₁ mr = (some n, d₁) := by
  unfold apply_mapping at h ⊢
  exact batch_idem (buildUpdates_nodup mr) h

theorem C5_witness :
    apply_mapping docOne mrOne = (some 1, docOneWith (some "A")) ∧
      apply_mapping (docOneWith (some "A")) mrOne = (some 1, docOneWith (some "A")) :=
  ⟨by decide, C5_apply_idempotent
    (show apply_mapping docOne mrOne = (some 1, docOneWith (some "A")) from by decide)⟩

/-- Claim C4 (amended): when the response text decodes as JSON neither
directly (after fence stripping and `strip()`) nor via the braced-span
regex fallback, `create_mapping` raises
`ValueError("Could not parse mapping response: ...")` carrying the first
500 characters of the fence-stripped response text, the failure is fatal,
and no `MappingResult` is produced.  (A response that does decode but is
not an object of records fails differently — see the counterexample.) -/
theorem C4_parse_failure (loads : String → Option Json) (raw : String)
    (slide : ArchitectureSlide) (comps : List SystemComponent)
    (h1 : loads (pyStrip (stripFences raw)) = none)
    (h2 : braceSpan (stripFences raw) = none) :
    create_mapping loads raw slide comps =
      .error (.valueError ("Could not parse mapping response: " ++ pyTake (stripFences raw) 500)) := by
  have ht : parseStage loads raw = Except.error (AgentErr.valueError
      ("Could not parse mapping response: " ++ pyTake (stripFences raw) 500)) := by
    show (match loads (pyStrip (stripFences raw)) with
      | some d => (Except.ok d : Except AgentErr Json)
      | none =>
        match braceSpan (stripFences raw) with
        | some m =>
          match loads m with
          | some d => Except.ok d
          | none => Except.error AgentErr.jsonDecodeError
        | none => Except.error (AgentErr.valueError
            ("Could not parse mapping response: " ++ pyTake (stripFences raw) 500))) =
      Except.error (AgentErr.valueError
        ("Could not parse mapping response: " ++ pyTake (stripFences raw) 500))
    rw [h1, h2]
  unfold create_mapping
  rw [ht]
  rfl

theorem C4_witness :
    loadsNone (pyStrip (stripFences "hello")) = none ∧
      braceSpan (stripFences "hello") = none ∧
      create_mapping loadsNone "hello" emptySlide [] =
        .error (.valueError
          ("Could not parse mapping response: " ++ pyTake (stripFences "hello") 500)) :=
  ⟨rfl, by decide, C4_parse_failure loadsNone "hello" emptySlide [] rfl (by decide)⟩

/-- Claim C4 counterexample: the raw response "42" has no JSON object of
records in it, yet `json.loads` succeeds (it is the JSON number 42), so the
structured `ValueError` carrying the response text is NOT raised: the call
dies on `data.get("mappings", [])` with an `AttributeError` instead. -/
theorem C4_counterexample :
    loadsNum "42" = some (Json.num 42) ∧
      create_mapping loadsNum "42" emptySlide [] = .error .attributeError :=
  ⟨rfl, rfl⟩

end DSD
